import Mathlib

/-!
Verification development for the Nagios status-file parser and object-graph
builder (`nagios/core.py`).

The Python source is shallowly embedded below:

* Python dicts become association lists (`List (k × v)`) with in-place
  overwrite on insertion (`dictInsert`) and first-match lookup (`dictGet`);
  every dict in the program is built exclusively through `dictInsert`, so its
  keys are duplicate-free and the two semantics coincide.
* The `next_stanza` generator becomes `nextStanzaAux` / `next_stanza`; a
  stanza is the raw Python dict (including its `type` entry, which a
  `type=...` field line can overwrite, exactly as in the source).
* Exceptions (`TypeError` on a key=value line before any stanza,
  `KeyError`/`ValueError` on a missing or non-numeric id, `AttributeError`
  when `host_or_service` returns `None` and the caller dereferences it)
  become `Except.error` values threaded through the whole build.
* Python's aliasing of one `Service` object from both `self.services` and
  `Host.services` is modelled by updating both copies in lock-step whenever a
  comment or downtime is attached to a service.
* The `pynag` config model is an external collaborator; the build is embedded
  with `cfg_file = None` (the `self.model = None` path), and `attach_config`
  is modelled separately at the entity level.
-/

set_option autoImplicit false

universe u v

/-! ## Python dict as an association list -/

/-- Lookup in a Python dict: the first (unique) entry with the given key. -/
def dictGet {α : Type u} {β : Type v} [DecidableEq α] (k : α) : List (α × β) → Option β
  | [] => Option.none
  | p :: rest => if p.1 = k then some p.2 else dictGet k rest

/-- `d[k] = v` on a Python dict: overwrite in place, else append. -/
def dictInsert {α : Type u} {β : Type v} [DecidableEq α] (k : α) (v : β) :
    List (α × β) → List (α × β)
  | [] => [(k, v)]
  | p :: rest => if p.1 = k then (k, v) :: rest else p :: dictInsert k v rest

/-- `k in d` for a Python dict. -/
def hasKey {α : Type u} {β : Type v} [DecidableEq α] (k : α) (d : List (α × β)) : Bool :=
  (dictGet k d).isSome

/-! ## Characters and string helpers used by the parser -/

/-- The opening curly brace character. -/
def openBrace : Char := Char.ofNat 123

/-- The characters removed by Python's `str.strip()`. -/
def isPySpace (c : Char) : Bool :=
  c = ' ' || c = '\t' || c = '\n' || c = '\r' || c = '\x0b' || c = '\x0c'

/-- `line.strip()`: remove leading and trailing whitespace. -/
def pyStrip (s : String) : String :=
  String.mk (((s.data.dropWhile isPySpace).reverse.dropWhile isPySpace).reverse)

/-- `line.endswith('{')`: the last character is an opening brace. -/
def endsWithBrace (s : String) : Bool := s.data.getLast? = some openBrace

/-- `c in line` for a single character. -/
def strContains (s : String) (c : Char) : Bool := s.data.any (fun a => a = c)

/-- `s.endswith(suffix)` for strings. -/
def strEndsWith (s suffix : String) : Bool := suffix.data.isSuffixOf s.data

/-- `line.split(' ', 1)[0]`: the prefix of the line before the first space
character (the whole line when it has no space). -/
def firstSpaceToken (s : String) : String :=
  String.mk (s.data.takeWhile (fun c => c ≠ ' '))

/-- `line.split('=', 1)`: the part before the first `=` and everything after
it (later `=` characters stay in the second part). -/
def splitFirstEq (s : String) : String × String :=
  (String.mk (s.data.takeWhile (fun c => c ≠ '=')),
   String.mk ((s.data.dropWhile (fun c => c ≠ '=')).drop 1))

/-- Modelled from the spec: "the first whitespace-delimited word" of a line.
Used only to compare the spec's wording with the code's `split(' ', 1)[0]`. -/
def firstWhitespaceToken (s : String) : String :=
  String.mk (s.data.takeWhile (fun c => ¬ c.isWhitespace))

/-- Decimal value of a nonempty all-digit character list. -/
def digitsVal : List Char → Nat → Option Nat
  | [], acc => some acc
  | c :: rest, acc =>
      if c.isDigit then digitsVal rest (acc * 10 + (c.toNat - 48)) else Option.none

/-- Python `int(s)` on a string: optional surrounding whitespace, optional
sign, decimal digits; `Option.none` models the `ValueError`. -/
def pyInt (s : String) : Option Int :=
  match (pyStrip s).data with
  | [] => Option.none
  | c :: rest =>
      if c = '-' then
        match rest with
        | [] => Option.none
        | r :: rs => (digitsVal (r :: rs) 0).map (fun n => -(n : Int))
      else if c = '+' then
        match rest with
        | [] => Option.none
        | r :: rs => (digitsVal (r :: rs) 0).map (fun n => (n : Int))
      else (digitsVal (c :: rest) 0).map (fun n => (n : Int))

/-! ## The stanza reader (`next_stanza`, core.py lines 37-49) -/

/-- A stanza is the raw Python dict built by `next_stanza`, including its
`type` entry. -/
abbrev Stanza := List (String × String)

/-- The loop state of the `next_stanza` generator: the stanza being built
(`cur`, `None` before the first header line) and the stanzas already yielded
(`acc`). -/
structure ReaderState where
  cur : Option Stanza
  acc : List Stanza
deriving DecidableEq

/-- The `TypeError` Python raises for `cur[key] = val` when `cur is None`. -/
def typeErrorMsg : String := "TypeError: NoneType object does not support item assignment"

/-- One line of the `next_stanza` loop body (core.py lines 39-47). -/
def stanzaStep (rs : ReaderState) (line0 : String) : Except String ReaderState :=
  let line := pyStrip line0
  if endsWithBrace line then
    Except.ok { cur := some [("type", firstSpaceToken line)],
                acc := rs.acc ++ rs.cur.toList }
  else if strContains line '=' then
    match rs.cur with
    | Option.none => Except.error typeErrorMsg
    | some c =>
        let kv := splitFirstEq line
        Except.ok { rs with cur := some (dictInsert kv.1 kv.2 c) }
  else
    Except.ok rs

/-- The `next_stanza` loop with its end-of-stream flush (core.py lines 48-49). -/
def nextStanzaAux (rs : ReaderState) : List String → Except String (List Stanza)
  | [] => Except.ok (rs.acc ++ rs.cur.toList)
  | l :: rest =>
      match stanzaStep rs l with
      | Except.error e => Except.error e
      | Except.ok rs' => nextStanzaAux rs' rest

/-- `next_stanza(f)`, run to completion over the lines of the status file. -/
def next_stanza (lines : List String) : Except String (List Stanza) :=
  nextStanzaAux { cur := Option.none, acc := [] } lines

/-! ## Entities (core.py lines 131-252) -/

/-- A JSON-ready Python value as produced by the `for_json` methods. -/
inductive Json where
  | str : String → Json
  | int : Int → Json
  | nul : Json
  | obj : List (Json × Json) → Json

/-- A Python dict key appearing in a `for_json` result: a string, an integer
comment/downtime id, or `None`. -/
inductive PyKey where
  | s : String → PyKey
  | i : Int → PyKey
  | non : PyKey
deriving DecidableEq

/-- The key a host-name value (`None` when absent) contributes to a dict. -/
def optKey : Option String → PyKey
  | Option.none => PyKey.non
  | some s => PyKey.s s

/-- The essential keys shared by `Host` and `Service` (core.py lines 164-167). -/
def hostServiceEssentialKeys : List String :=
  ["current_state", "plugin_output", "notifications_enabled", "last_check",
   "last_notification", "active_checks_enabled", "problem_has_been_acknowledged",
   "last_hard_state", "scheduled_downtime_depth"]

/-- `config_items` for a `Host` (core.py lines 168 and 193). -/
def hostConfigItems : List String := ["alias", "notes", "hostgroups"]

/-- `config_items` for a `Service` (core.py lines 168 and 216). -/
def serviceConfigItems : List String := ["alias", "notes", "servicegroups"]

/-- `essential_keys` of a `Comment` (core.py lines 235-237). -/
def commentEssentialKeys : List String :=
  ["comment_id", "entry_type", "source", "persistent", "entry_time", "expires",
   "expire_time", "author", "comment_data"]

/-- `essential_keys` of a `Downtime` (core.py lines 248-250). -/
def downtimeEssentialKeys : List String :=
  ["downtime_id", "entry_time", "start_time", "end_time", "triggered_by",
   "fixed", "duration", "author", "comment"]

/-- A `Comment` object: the raw stanza dict plus the attribute `comment_id`
overwritten with its integer value (core.py lines 228-238). -/
structure Comment where
  fields : Stanza
  comment_id : Int
deriving DecidableEq

/-- `Comment(obj)` where `i` is `int(obj['comment_id'])`. -/
def Comment.build (obj : Stanza) (i : Int) : Comment := { fields := obj, comment_id := i }

/-- `self.host` of a comment (core.py line 139). -/
def Comment.host (c : Comment) : Option String := dictGet "host_name" c.fields

/-- `self.service` of a comment (core.py line 140). -/
def Comment.service (c : Comment) : Option String := dictGet "service_description" c.fields

/-- `getattr(self, key, None)` on a `Comment`, for keys queried by `for_json`. -/
def Comment.attr (c : Comment) (k : String) : Json :=
  if k = "comment_id" then Json.int c.comment_id
  else
    match dictGet k c.fields with
    | some v => Json.str v
    | Option.none => Json.nul

/-- A `Downtime` object (core.py lines 241-252). -/
structure Downtime where
  fields : Stanza
  downtime_id : Int
deriving DecidableEq

/-- `Downtime(obj)` where `i` is `int(obj['downtime_id'])`. -/
def Downtime.build (obj : Stanza) (i : Int) : Downtime := { fields := obj, downtime_id := i }

/-- `self.host` of a downtime. -/
def Downtime.host (d : Downtime) : Option String := dictGet "host_name" d.fields

/-- `self.service` of a downtime. -/
def Downtime.service (d : Downtime) : Option String := dictGet "service_description" d.fields

/-- `getattr(self, key, None)` on a `Downtime`. -/
def Downtime.attr (d : Downtime) (k : String) : Json :=
  if k = "downtime_id" then Json.int d.downtime_id
  else
    match dictGet k d.fields with
    | some v => Json.str v
    | Option.none => Json.nul

/-- A `Service` object (core.py lines 209-225): raw stanza fields, the
(growable) `essential_keys` list, config-set attributes, and the attached
comment/downtime dicts. -/
structure Service where
  fields : Stanza
  essential_keys : List String
  configAttrs : List (String × String)
  comments : List (Int × Comment)
  downtimes : List (Int × Downtime)
deriving DecidableEq

/-- `Service(obj)`. -/
def Service.build (obj : Stanza) : Service :=
  { fields := obj, essential_keys := hostServiceEssentialKeys, configAttrs := [],
    comments := [], downtimes := [] }

/-- `self.service` of a service. -/
def Service.service (s : Service) : Option String := dictGet "service_description" s.fields

/-- `getattr(self, key, None)` on a `Service` for essential keys: a
config-set attribute shadows the stanza field of the same name. -/
def Service.attr (s : Service) (k : String) : Json :=
  match dictGet k s.configAttrs with
  | some v => Json.str v
  | Option.none =>
      match dictGet k s.fields with
      | some v => Json.str v
      | Option.none => Json.nul

/-- One `config_items` iteration of `attach_config` (core.py lines 171-174):
a non-empty config value is set as an attribute and its key promoted into
`essential_keys`. -/
def serviceConfigStep (conf : List (String × String)) (s : Service) (item : String) : Service :=
  match dictGet item conf with
  | some v =>
      if v = "" then s
      else { s with configAttrs := dictInsert item v s.configAttrs,
                    essential_keys := s.essential_keys ++ [item] }
  | Option.none => s

/-- `attach_config` on a `Service` (core.py lines 170-174). -/
def Service.attach_config (s : Service) (conf : List (String × String)) : Service :=
  serviceConfigItems.foldl (serviceConfigStep conf) s

/-- `attach_comment` on a `Service` (core.py lines 180-182). -/
def Service.attach_comment (s : Service) (c : Comment) : Service :=
  { s with comments := dictInsert c.comment_id c s.comments }

/-- `attach_downtime` on a `Service` (core.py lines 176-178). -/
def Service.attach_downtime (s : Service) (d : Downtime) : Service :=
  { s with downtimes := dictInsert d.downtime_id d s.downtimes }

/-- A `Host` object (core.py lines 185-206). -/
structure Host where
  fields : Stanza
  essential_keys : List String
  configAttrs : List (String × String)
  services : List (Option String × Service)
  comments : List (Int × Comment)
  downtimes : List (Int × Downtime)
deriving DecidableEq

/-- `Host(obj)`. -/
def Host.build (obj : Stanza) : Host :=
  { fields := obj, essential_keys := hostServiceEssentialKeys, configAttrs := [],
    services := [], comments := [], downtimes := [] }

/-- `getattr(self, key, None)` on a `Host` for essential keys. -/
def Host.attr (h : Host) (k : String) : Json :=
  match dictGet k h.configAttrs with
  | some v => Json.str v
  | Option.none =>
      match dictGet k h.fields with
      | some v => Json.str v
      | Option.none => Json.nul

/-- One host `config_items` iteration of `attach_config`. -/
def hostConfigStep (conf : List (String × String)) (h : Host) (item : String) : Host :=
  match dictGet item conf with
  | some v =>
      if v = "" then h
      else { h with configAttrs := dictInsert item v h.configAttrs,
                    essential_keys := h.essential_keys ++ [item] }
  | Option.none => h

/-- `attach_config` on a `Host` (core.py lines 170-174 with the host
`config_items`). -/
def Host.attach_config (h : Host) (conf : List (String × String)) : Host :=
  hostConfigItems.foldl (hostConfigStep conf) h

/-- `attach_service` on a `Host` (core.py lines 195-197). -/
def Host.attach_service (h : Host) (svc : Service) : Host :=
  { h with services := dictInsert svc.service svc h.services }

/-- `attach_comment` on a `Host`. -/
def Host.attach_comment (h : Host) (c : Comment) : Host :=
  { h with comments := dictInsert c.comment_id c h.comments }

/-- `attach_downtime` on a `Host`. -/
def Host.attach_downtime (h : Host) (d : Downtime) : Host :=
  { h with downtimes := dictInsert d.downtime_id d h.downtimes }

/-! ## `for_json` serialization (core.py lines 143-152, 199-206, 218-225) -/

/-- `NagiosObject.for_json`: `obj = {}; for key in essential_keys:
obj[key] = getattr(self, key, None)`. -/
def baseForJson (ks : List String) (attr : String → Json) : List (String × Json) :=
  ks.foldl (fun d k => dictInsert k (attr k) d) []

/-- Wrap a string-keyed dict as a `Json` object. -/
def strObj (l : List (String × Json)) : Json :=
  Json.obj (l.map (fun p => (Json.str p.1, p.2)))

/-- `Comment.for_json` (the inherited `NagiosObject.for_json`). -/
def Comment.for_json (c : Comment) : List (String × Json) :=
  baseForJson commentEssentialKeys c.attr

/-- `Downtime.for_json`. -/
def Downtime.for_json (d : Downtime) : List (String × Json) :=
  baseForJson downtimeEssentialKeys d.attr

/-- An integer-keyed dict of `for_json` views. -/
def intObj (l : List (Int × List (String × Json))) : Json :=
  Json.obj (l.map (fun p => (Json.int p.1, strObj p.2)))

/-- `Service.for_json`: the base dict, then `obj['comments']` and
`obj['downtimes']` assigned on top of it. -/
def Service.for_json (s : Service) : List (String × Json) :=
  dictInsert "downtimes" (intObj (s.downtimes.map (fun p => (p.1, p.2.for_json))))
    (dictInsert "comments" (intObj (s.comments.map (fun p => (p.1, p.2.for_json))))
      (baseForJson s.essential_keys s.attr))

/-- The key a host-name or service-name dict key contributes to JSON. -/
def optJsonKey : Option String → Json
  | Option.none => Json.nul
  | some s => Json.str s

/-- `Host.for_json`: the base dict, then `obj['services']`, `obj['comments']`,
`obj['downtimes']` assigned on top of it. -/
def Host.for_json (h : Host) : List (String × Json) :=
  dictInsert "downtimes" (intObj (h.downtimes.map (fun p => (p.1, p.2.for_json))))
    (dictInsert "comments" (intObj (h.comments.map (fun p => (p.1, p.2.for_json))))
      (dictInsert "services"
        (Json.obj (h.services.map (fun p => (optJsonKey p.1, strObj p.2.for_json))))
        (baseForJson h.essential_keys h.attr)))

/-! ## The Nagios state and `_update` (core.py lines 8-128) -/

/-- The four top-level dicts of a `Nagios` object (core.py lines 19-22). -/
structure NagiosState where
  hosts : List (Option String × Host)
  services : List (Option String × List (Option String × Service))
  comments : List (Int × Comment)
  downtimes : List (Int × Downtime)
deriving DecidableEq

/-- The empty state created in `__init__`. -/
def initState : NagiosState :=
  { hosts := [], services := [], comments := [], downtimes := [] }

/-- The result of `host_or_service`: a `Host` or a `Service` object. -/
inductive Entity where
  | h : Host → Entity
  | s : Service → Entity
deriving DecidableEq

/-- `Nagios.host_or_service(host, service)` (core.py lines 107-118); the
`service` argument is `None` when the caller wants the host. -/
def NagiosState.host_or_service (st : NagiosState) (host : Option String)
    (service : Option String) : Option Entity :=
  match dictGet host st.hosts with
  | Option.none => Option.none
  | some hobj =>
      match service with
      | Option.none => some (Entity.h hobj)
      | some sname =>
          match dictGet host st.services with
          | Option.none => Option.none
          | some inner =>
              match dictGet (some sname) inner with
              | Option.none => Option.none
              | some sobj => some (Entity.s sobj)

/-- The `KeyError`/`ValueError` raised for a missing or non-numeric id. -/
def idErrorMsg : String := "ValueError: invalid or missing id field"

/-- `obj['type']`: always present, set when the stanza header was read (a
`type=...` field line would only overwrite it). -/
def typS (obj : Stanza) : String := (dictGet "type" obj).getD ""

/-- `int(obj['comment_id'])`: `Option.none` models both the `KeyError` for a
missing field and the `ValueError` for a non-numeric one. -/
def commentId (obj : Stanza) : Option Int :=
  match dictGet "comment_id" obj with
  | Option.none => Option.none
  | some v => pyInt v

/-- `int(obj['downtime_id'])`. -/
def downtimeId (obj : Stanza) : Option Int :=
  match dictGet "downtime_id" obj with
  | Option.none => Option.none
  | some v => pyInt v

/-- Whether the dispatch loop treats `obj` as a comment stanza (reaches the
`obj['type'].endswith('comment')` branch). -/
def isCommentStanza (obj : Stanza) : Bool :=
  ¬(typS obj = "hoststatus") && ¬(typS obj = "servicestatus")
    && strEndsWith (typS obj) "comment"

/-- Whether the dispatch loop treats `obj` as a downtime stanza. -/
def isDowntimeStanza (obj : Stanza) : Bool :=
  ¬(typS obj = "hoststatus") && ¬(typS obj = "servicestatus")
    && ¬(strEndsWith (typS obj) "comment") && strEndsWith (typS obj) "downtime"

/-- `self.services[host][service] = Service(obj)` preceded by
`if host not in self.services: self.services[host] = {}`
(core.py lines 58-61). -/
def insertService (obj : Stanza)
    (services : List (Option String × List (Option String × Service))) :
    List (Option String × List (Option String × Service)) :=
  dictInsert (dictGet "host_name" obj)
    (dictInsert (dictGet "service_description" obj) (Service.build obj)
      ((dictGet (dictGet "host_name" obj) services).getD []))
    services

/-- One iteration of the stanza-dispatch loop (core.py lines 52-65). -/
def processStanza (st : NagiosState) (obj : Stanza) : Except String NagiosState :=
  if typS obj = "hoststatus" then
    Except.ok { st with
      hosts := dictInsert (dictGet "host_name" obj) (Host.build obj) st.hosts }
  else if typS obj = "servicestatus" then
    Except.ok { st with services := insertService obj st.services }
  else if strEndsWith (typS obj) "comment" then
    match commentId obj with
    | Option.none => Except.error idErrorMsg
    | some i =>
        Except.ok { st with comments := dictInsert i (Comment.build obj i) st.comments }
  else if strEndsWith (typS obj) "downtime" then
    match downtimeId obj with
    | Option.none => Except.error idErrorMsg
    | some i =>
        Except.ok { st with downtimes := dictInsert i (Downtime.build obj i) st.downtimes }
  else
    Except.ok st

/-- The stanza-dispatch loop over all stanzas. -/
def processStanzasAux (st : NagiosState) : List Stanza → Except String NagiosState
  | [] => Except.ok st
  | s :: rest =>
      match processStanza st s with
      | Except.error e => Except.error e
      | Except.ok st' => processStanzasAux st' rest

/-- `for obj in next_stanza(f): ...` starting from the empty state. -/
def processStanzas (stanzas : List Stanza) : Except String NagiosState :=
  processStanzasAux initState stanzas

/-- The `AttributeError` from `None.attach_service(...)`. -/
def attachServiceErrMsg : String :=
  "AttributeError: NoneType object has no attribute attach_service"

/-- The `AttributeError` from `None.attach_comment(...)`. -/
def attachCommentErrMsg : String :=
  "AttributeError: NoneType object has no attribute attach_comment"

/-- The `AttributeError` from `None.attach_downtime(...)`. -/
def attachDowntimeErrMsg : String :=
  "AttributeError: NoneType object has no attribute attach_downtime"

/-- Inner loop of core.py lines 74-81 (with `self.model = None`):
`self.host_or_service(host).attach_service(s)` for each service of one host;
when `host_or_service` returns `None` Python raises an `AttributeError`. -/
def attachOneHostServices (st : NagiosState) (hk : Option String) :
    List (Option String × Service) → Except String NagiosState
  | [] => Except.ok st
  | (_, svc) :: rest =>
      match st.host_or_service hk Option.none with
      | some (Entity.h hobj) =>
          attachOneHostServices
            { st with hosts := dictInsert hk (hobj.attach_service svc) st.hosts } hk rest
      | _ => Except.error attachServiceErrMsg

/-- Outer loop of core.py lines 68-81 over `self.services`. -/
def attachServicesAux (st : NagiosState) :
    List (Option String × List (Option String × Service)) → Except String NagiosState
  | [] => Except.ok st
  | (hk, inner) :: rest =>
      match attachOneHostServices st hk inner with
      | Except.error e => Except.error e
      | Except.ok st' => attachServicesAux st' rest

/-- Phase 2a of `_update`: attach every parsed service to its host. -/
def NagiosState.attachServices (st : NagiosState) : Except String NagiosState :=
  attachServicesAux st st.services

/-- Overwrite the service stored at `services[h][sk]`, when present.  Models
the in-place mutation of the `Service` object reachable from `self.services`. -/
def updateService (h : Option String) (sk : Option String) (svc : Service)
    (services : List (Option String × List (Option String × Service))) :
    List (Option String × List (Option String × Service)) :=
  match dictGet h services with
  | some inner => dictInsert h (dictInsert sk svc inner) services
  | Option.none => services

/-- Overwrite the copy of a service held inside `hosts[h].services`, when the
host exists.  Models the aliasing of the same `Service` object from
`Host.services`. -/
def updateHostServiceCopy (h : Option String) (sk : Option String) (svc : Service)
    (hosts : List (Option String × Host)) : List (Option String × Host) :=
  match dictGet h hosts with
  | some hobj =>
      dictInsert h { hobj with services := dictInsert sk svc hobj.services } hosts
  | Option.none => hosts

/-- The loop of core.py lines 82-83:
`self.host_or_service(c.host, c.service).attach_comment(c)`. -/
def attachCommentsAux (st : NagiosState) : List (Int × Comment) → Except String NagiosState
  | [] => Except.ok st
  | (_, c) :: rest =>
      match st.host_or_service c.host c.service with
      | Option.none => Except.error attachCommentErrMsg
      | some (Entity.h hobj) =>
          attachCommentsAux
            { st with hosts := dictInsert c.host (hobj.attach_comment c) st.hosts } rest
      | some (Entity.s sobj) =>
          let sobj' := sobj.attach_comment c
          attachCommentsAux
            { st with services := updateService c.host c.service sobj' st.services,
                      hosts := updateHostServiceCopy c.host sobj.service sobj' st.hosts } rest

/-- Phase 2b of `_update`. -/
def NagiosState.attachComments (st : NagiosState) : Except String NagiosState :=
  attachCommentsAux st st.comments

/-- The loop of core.py lines 84-85. -/
def attachDowntimesAux (st : NagiosState) : List (Int × Downtime) → Except String NagiosState
  | [] => Except.ok st
  | (_, d) :: rest =>
      match st.host_or_service d.host d.service with
      | Option.none => Except.error attachDowntimeErrMsg
      | some (Entity.h hobj) =>
          attachDowntimesAux
            { st with hosts := dictInsert d.host (hobj.attach_downtime d) st.hosts } rest
      | some (Entity.s sobj) =>
          let sobj' := sobj.attach_downtime d
          attachDowntimesAux
            { st with services := updateService d.host d.service sobj' st.services,
                      hosts := updateHostServiceCopy d.host sobj.service sobj' st.hosts } rest

/-- Phase 2c of `_update`. -/
def NagiosState.attachDowntimes (st : NagiosState) : Except String NagiosState :=
  attachDowntimesAux st st.downtimes

/-- `Nagios(statusfile)` with `cfg_file = None`: parse the lines of the
status file and run `_update`; any Python exception surfaces as an error and
no snapshot is produced. -/
def nagiosBuild (lines : List String) : Except String NagiosState :=
  match next_stanza lines with
  | Except.error e => Except.error e
  | Except.ok stanzas =>
      match processStanzas stanzas with
      | Except.error e => Except.error e
      | Except.ok st =>
          match st.attachServices with
          | Except.error e => Except.error e
          | Except.ok st1 =>
              match st1.attachComments with
              | Except.error e => Except.error e
              | Except.ok st2 => st2.attachDowntimes

/-- `Nagios.for_json` (core.py lines 120-128). -/
def NagiosState.for_json (st : NagiosState) : List (PyKey × Json) :=
  st.hosts.map (fun p => (optKey p.1, strObj p.2.for_json))

/-- Whether an `Except` result is a success. -/
def exceptIsOk {ε : Type u} {α : Type v} : Except ε α → Bool
  | Except.ok _ => true
  | Except.error _ => false

/-! ## Association-list (Python dict) lemmas -/

theorem dictGet_dictInsert {α : Type u} {β : Type v} [DecidableEq α]
    (k k' : α) (v : β) (d : List (α × β)) :
    dictGet k (dictInsert k' v d) = if k' = k then some v else dictGet k d := by
  induction d with
  | nil => simp [dictGet, dictInsert]
  | cons p rest ih =>
      by_cases h1 : p.1 = k'
      · by_cases h2 : k' = k <;> simp [dictGet, dictInsert, h1, h2]
      · by_cases h2 : p.1 = k
        · have h3 : ¬ k = k' := fun he => h1 (h2.trans he)
          have h4 : ¬ k' = k := fun he => h3 he.symm
          simp [dictGet, dictInsert, h1, h2, h3, h4]
        · simp [dictGet, dictInsert, h1, h2, ih]

theorem hasKey_dictInsert {α : Type u} {β : Type v} [DecidableEq α]
    (k k' : α) (v : β) (d : List (α × β)) :
    hasKey k (dictInsert k' v d) = if k' = k then true else hasKey k d := by
  by_cases h : k' = k <;> simp [hasKey, dictGet_dictInsert, h]

theorem dictInsert_ne_nil {α : Type u} {β : Type v} [DecidableEq α]
    (k : α) (v : β) (d : List (α × β)) : dictInsert k v d ≠ [] := by
  cases d with
  | nil => simp [dictInsert]
  | cons p rest =>
      by_cases h : p.1 = k <;> simp [dictInsert, h]

theorem mem_dictInsert {α : Type u} {β : Type v} [DecidableEq α]
    (p : α × β) (k : α) (v : β) (d : List (α × β)) :
    p ∈ dictInsert k v d → p = (k, v) ∨ p ∈ d := by
  induction d with
  | nil => simp [dictInsert]
  | cons q rest ih =>
      by_cases h : q.1 = k
      · intro hm
        rcases List.mem_cons.mp (by simpa [dictInsert, h] using hm) with h1 | h1
        · exact Or.inl h1
        · exact Or.inr (List.mem_cons_of_mem _ h1)
      · intro hm
        rcases List.mem_cons.mp (by simpa [dictInsert, h] using hm) with h1 | h1
        · exact Or.inr (h1 ▸ List.mem_cons_self _ _)
        · rcases ih h1 with h2 | h2
          · exact Or.inl h2
          · exact Or.inr (List.mem_cons_of_mem _ h2)

theorem dictGet_mem {α : Type u} {β : Type v} [DecidableEq α]
    {k : α} {v : β} {d : List (α × β)} : dictGet k d = some v → (k, v) ∈ d := by
  induction d with
  | nil => simp [dictGet]
  | cons p rest ih =>
      intro hg
      simp only [dictGet] at hg
      by_cases h : p.1 = k
      · rw [if_pos h] at hg
        obtain ⟨a, b⟩ := p
        have hb : b = v := Option.some.inj hg
        subst hb
        exact h ▸ List.mem_cons_self _ _
      · rw [if_neg h] at hg
        exact List.mem_cons_of_mem _ (ih hg)

theorem keys_dictInsert {α : Type u} {β : Type v} [DecidableEq α]
    (x k : α) (v : β) (d : List (α × β)) :
    x ∈ (dictInsert k v d).map Prod.fst → x = k ∨ x ∈ d.map Prod.fst := by
  intro hx
  rcases List.mem_map.mp hx with ⟨p, hp, he⟩
  rcases mem_dictInsert p k v d hp with h1 | h1
  · left; rw [← he, h1]
  · right; exact List.mem_map.mpr ⟨p, h1, he⟩

theorem nodup_keys_dictInsert {α : Type u} {β : Type v} [DecidableEq α]
    (k : α) (v : β) (d : List (α × β)) :
    (d.map Prod.fst).Nodup → ((dictInsert k v d).map Prod.fst).Nodup := by
  induction d with
  | nil => simp [dictInsert]
  | cons p rest ih =>
      intro hn
      rw [List.map_cons, List.nodup_cons] at hn
      by_cases h : p.1 = k
      · rw [dictInsert, if_pos h, List.map_cons, List.nodup_cons]
        exact ⟨h ▸ hn.1, hn.2⟩
      · rw [dictInsert, if_neg h, List.map_cons, List.nodup_cons]
        constructor
        · intro hmem
          rcases keys_dictInsert p.1 k v rest hmem with h1 | h1
          · exact h h1
          · exact hn.1 h1
        · exact ih hn.2

theorem dictGet_of_mem_nodup {α : Type u} {β : Type v} [DecidableEq α]
    {k : α} {v : β} {d : List (α × β)} (hn : (d.map Prod.fst).Nodup)
    (hm : (k, v) ∈ d) : dictGet k d = some v := by
  induction d with
  | nil => simp at hm
  | cons p rest ih =>
      rw [List.map_cons, List.nodup_cons] at hn
      rcases List.mem_cons.mp hm with h1 | h1
      · rw [← h1]; simp [dictGet]
      · have hk : p.1 ≠ k := by
          intro he
          exact hn.1 (he ▸ List.mem_map.mpr ⟨(k, v), h1, rfl⟩)
        rw [dictGet, if_neg hk]
        exact ih hn.2 h1

/-! ## Helper accessors and concrete inputs used by witnesses -/

/-- The success value of an `Except`, with a default. -/
def exceptGetD {ε : Type u} {α : Type v} (e : Except ε α) (d : α) : α :=
  match e with
  | Except.ok a => a
  | Except.error _ => d

/-- Hosts obtainable from a raw stanza by the operations the assembler (and
config resolution) performs on a `Host` object. -/
inductive hostReach : Host → Prop where
  | build (obj : Stanza) : hostReach (Host.build obj)
  | config (h : Host) (conf : List (String × String)) :
      hostReach h → hostReach (h.attach_config conf)
  | svc (h : Host) (s : Service) : hostReach h → hostReach (h.attach_service s)
  | cmt (h : Host) (c : Comment) : hostReach h → hostReach (h.attach_comment c)
  | dt (h : Host) (d : Downtime) : hostReach h → hostReach (h.attach_downtime d)

/-- Services obtainable from a raw stanza by the operations the assembler
(and config resolution) performs on a `Service` object. -/
inductive serviceReach : Service → Prop where
  | build (obj : Stanza) : serviceReach (Service.build obj)
  | config (s : Service) (conf : List (String × String)) :
      serviceReach s → serviceReach (s.attach_config conf)
  | cmt (s : Service) (c : Comment) : serviceReach s → serviceReach (s.attach_comment c)
  | dt (s : Service) (d : Downtime) : serviceReach s → serviceReach (s.attach_downtime d)

/-- A servicestatus stanza whose host never appears as a hoststatus stanza. -/
def c1lines : List String :=
  ["servicestatus \x7b", "host_name=web1", "service_description=http"]

/-- The stanzas parsed from `c1lines`. -/
def c1stanzas : List Stanza :=
  [[("type", "servicestatus"), ("host_name", "web1"), ("service_description", "http")]]

/-- A comment stanza naming a host that has no hoststatus stanza. -/
def c2lines : List String :=
  ["hostcomment \x7b", "host_name=ghost", "comment_id=1"]

/-- The stanzas parsed from `c2lines`. -/
def c2stanzas : List Stanza :=
  [[("type", "hostcomment"), ("host_name", "ghost"), ("comment_id", "1")]]

/-- The state after the stanza-dispatch loop on `c2stanzas`. -/
def c2st : NagiosState := exceptGetD (processStanzas c2stanzas) initState

/-- A small healthy input: one host with one service. -/
def w4lines : List String :=
  ["hoststatus \x7b", "host_name=web1", "current_state=0",
   "servicestatus \x7b", "host_name=web1", "service_description=http", "current_state=2"]

/-- The snapshot built from `w4lines`. -/
def w4st : NagiosState := exceptGetD (nagiosBuild w4lines) initState

/-- The host stored for `web1` in `w4st`. -/
def w4host : Host := (dictGet (some "web1") w4st.hosts).getD (Host.build [])

/-- The per-host service dict for `web1` in `w4st`. -/
def w4inner : List (Option String × Service) :=
  (dictGet (some "web1") w4st.services).getD []

/-- The service stored for `(web1, http)` in `w4st`. -/
def w4svc : Service := (dictGet (some "http") w4inner).getD (Service.build [])

/-- Input with a service comment and a host downtime on resolvable targets. -/
def w5lines : List String :=
  ["hoststatus \x7b", "host_name=web1", "current_state=0",
   "servicestatus \x7b", "host_name=web1", "service_description=http", "current_state=2",
   "servicecomment \x7b", "host_name=web1", "service_description=http", "comment_id=5",
   "author=ops", "comment_data=ack",
   "hostdowntime \x7b", "host_name=web1", "downtime_id=7", "author=ops"]

/-- The stanzas parsed from `w5lines`. -/
def w5stanzas : List Stanza := exceptGetD (next_stanza w5lines) []

/-- The state after the stanza-dispatch loop on `w5stanzas`. -/
def w5st : NagiosState := exceptGetD (processStanzas w5stanzas) initState

/-- The finished snapshot for `w5lines`. -/
def w5stF : NagiosState := exceptGetD (nagiosBuild w5lines) initState

/-- The comment entity parsed from the `servicecomment` stanza of `w5lines`. -/
def w5c : Comment :=
  Comment.build
    [("type", "servicecomment"), ("host_name", "web1"), ("service_description", "http"),
     ("comment_id", "5"), ("author", "ops"), ("comment_data", "ack")] 5

/-- The downtime entity parsed from the `hostdowntime` stanza of `w5lines`. -/
def w5d : Downtime :=
  Downtime.build
    [("type", "hostdowntime"), ("host_name", "web1"), ("downtime_id", "7"), ("author", "ops")] 7

/-- Input with duplicated comment and downtime ids. -/
def w6lines : List String :=
  ["hoststatus \x7b", "host_name=h",
   "hostcomment \x7b", "host_name=h", "comment_id=3", "author=first",
   "hostcomment \x7b", "host_name=h", "comment_id=3", "author=second",
   "hostdowntime \x7b", "host_name=h", "downtime_id=4", "author=early",
   "hostdowntime \x7b", "host_name=h", "downtime_id=4", "author=late"]

/-- The stanzas parsed from `w6lines`. -/
def w6stanzas : List Stanza := exceptGetD (next_stanza w6lines) []

/-- The state after the stanza-dispatch loop on `w6stanzas`. -/
def w6st : NagiosState := exceptGetD (processStanzas w6stanzas) initState

/-- The finished snapshot for `w6lines`. -/
def w6stF : NagiosState := exceptGetD (nagiosBuild w6lines) initState

/-- A raw host stanza carrying a key outside the essential allow-list. -/
def w7obj : Stanza :=
  [("type", "hoststatus"), ("host_name", "web1"), ("current_state", "0"),
   ("secret_internal", "x")]

/-- A config record with one empty and two non-empty consumed fields. -/
def w7conf : List (String × String) := [("alias", "A"), ("notes", ""), ("hostgroups", "g")]

/-- Input whose hoststatus and servicestatus stanzas lack `host_name`. -/
def w9lines : List String :=
  ["hoststatus \x7b", "current_state=0", "servicestatus \x7b", "service_description=s"]

/-- The stanzas parsed from `w9lines`. -/
def w9stanzas : List Stanza := exceptGetD (next_stanza w9lines) []

/-- The state after the stanza-dispatch loop on `w9stanzas`. -/
def w9st : NagiosState := exceptGetD (processStanzas w9stanzas) initState

/-- The finished snapshot for `w9lines`. -/
def w9stF : NagiosState := exceptGetD (nagiosBuild w9lines) initState

/-- The last comment-typed stanza in the list whose id parses to `i`
(`Option.none` when there is none). -/
def lastCommentStanza (i : Int) : List Stanza → Option Stanza
  | [] => Option.none
  | s :: rest =>
      match lastCommentStanza i rest with
      | some r => some r
      | Option.none =>
          if isCommentStanza s = true ∧ commentId s = some i then some s else Option.none

/-- The last downtime-typed stanza in the list whose id parses to `i`. -/
def lastDowntimeStanza (i : Int) : List Stanza → Option Stanza
  | [] => Option.none
  | s :: rest =>
      match lastDowntimeStanza i rest with
      | some r => some r
      | Option.none =>
          if isDowntimeStanza s = true ∧ downtimeId s = some i then some s else Option.none

/-- The later of the two duplicate-id comment stanzas in `w6lines`. -/
def w6cstanza : Stanza :=
  [("type", "hostcomment"), ("host_name", "h"), ("comment_id", "3"), ("author", "second")]

/-- The later of the two duplicate-id downtime stanzas in `w6lines`. -/
def w6dstanza : Stanza :=
  [("type", "hostdowntime"), ("host_name", "h"), ("downtime_id", "4"), ("author", "late")]

/-- A host stanza lacking most essential fields. -/
def w10hobj : Stanza := [("type", "hoststatus"), ("host_name", "web1")]

/-- A service stanza lacking most essential fields. -/
def w10sobj : Stanza :=
  [("type", "servicestatus"), ("host_name", "web1"), ("service_description", "http")]

/-- A comment stanza with no author field. -/
def w10cobj : Stanza := [("type", "hostcomment"), ("host_name", "web1"), ("comment_id", "5")]

/-- A downtime stanza with no author field. -/
def w10dobj : Stanza := [("type", "hostdowntime"), ("host_name", "web1"), ("downtime_id", "7")]

/-- The comment `c` is attached to the service at `(c.host, sname)`: the host
exists and the service's comment dict maps `c.comment_id` to `c`. -/
def commentAttachedToService (st : NagiosState) (c : Comment) (sname : String) : Prop :=
  hasKey c.host st.hosts = true
  ∧ ∃ inner svc, dictGet c.host st.services = some inner
    ∧ dictGet (some sname) inner = some svc
    ∧ dictGet c.comment_id svc.comments = some c

/-- The comment `c` is attached to its host's own comment dict. -/
def commentAttachedToHost (st : NagiosState) (c : Comment) : Prop :=
  ∃ hobj, dictGet c.host st.hosts = some hobj
    ∧ dictGet c.comment_id hobj.comments = some c

/-- No host's own comment dict carries the id `i`. -/
def commentNotOnHosts (st : NagiosState) (i : Int) : Prop :=
  ∀ (k : Option String) (hobj : Host), dictGet k st.hosts = some hobj →
    dictGet i hobj.comments = Option.none

/-- The downtime `d` is attached to the service at `(d.host, sname)`. -/
def downtimeAttachedToService (st : NagiosState) (d : Downtime) (sname : String) : Prop :=
  hasKey d.host st.hosts = true
  ∧ ∃ inner svc, dictGet d.host st.services = some inner
    ∧ dictGet (some sname) inner = some svc
    ∧ dictGet d.downtime_id svc.downtimes = some d

/-- The downtime `d` is attached to its host's own downtime dict. -/
def downtimeAttachedToHost (st : NagiosState) (d : Downtime) : Prop :=
  ∃ hobj, dictGet d.host st.hosts = some hobj
    ∧ dictGet d.downtime_id hobj.downtimes = some d

/-- No host's own downtime dict carries the id `i`. -/
def downtimeNotOnHosts (st : NagiosState) (i : Int) : Prop :=
  ∀ (k : Option String) (hobj : Host), dictGet k st.hosts = some hobj →
    dictGet i hobj.downtimes = Option.none

/-- A state transition that leaves every comment-dict lookup at the id `i`
unchanged, on all hosts and all services, while preserving host keys. -/
def commentIdPreserved (i : Int) (st st1 : NagiosState) : Prop :=
  (∀ k, hasKey k st1.hosts = hasKey k st.hosts)
  ∧ (∀ (k : Option String) (hobj : Host), dictGet k st.hosts = some hobj →
      ∃ hobj1, dictGet k st1.hosts = some hobj1
        ∧ dictGet i hobj1.comments = dictGet i hobj.comments)
  ∧ (∀ (k : Option String) (hobj1 : Host), dictGet k st1.hosts = some hobj1 →
      ∃ hobj, dictGet k st.hosts = some hobj
        ∧ dictGet i hobj1.comments = dictGet i hobj.comments)
  ∧ (∀ (k sk : Option String) (inner : List (Option String × Service)) (svc : Service),
      dictGet k st.services = some inner → dictGet sk inner = some svc →
      ∃ inner1 svc1, dictGet k st1.services = some inner1
        ∧ dictGet sk inner1 = some svc1
        ∧ dictGet i svc1.comments = dictGet i svc.comments)

/-- The downtime analogue of `commentIdPreserved`. -/
def downtimeIdPreserved (i : Int) (st st1 : NagiosState) : Prop :=
  (∀ k, hasKey k st1.hosts = hasKey k st.hosts)
  ∧ (∀ (k : Option String) (hobj : Host), dictGet k st.hosts = some hobj →
      ∃ hobj1, dictGet k st1.hosts = some hobj1
        ∧ dictGet i hobj1.downtimes = dictGet i hobj.downtimes)
  ∧ (∀ (k : Option String) (hobj1 : Host), dictGet k st1.hosts = some hobj1 →
      ∃ hobj, dictGet k st.hosts = some hobj
        ∧ dictGet i hobj1.downtimes = dictGet i hobj.downtimes)
  ∧ (∀ (k sk : Option String) (inner : List (Option String × Service)) (svc : Service),
      dictGet k st.services = some inner → dictGet sk inner = some svc →
      ∃ inner1 svc1, dictGet k st1.services = some inner1
        ∧ dictGet sk inner1 = some svc1
        ∧ dictGet i svc1.downtimes = dictGet i svc.downtimes)

/-- The host stored for `web1` in the finished snapshot for `w5lines`. -/
def w5host : Host := (dictGet (some "web1") w5stF.hosts).getD (Host.build [])

/-! ## Lemmas about the stanza reader -/

theorem stanzaStep_brace (rs : ReaderState) (l : String)
    (h : endsWithBrace (pyStrip l) = true) :
    stanzaStep rs l =
      Except.ok { cur := some [("type", firstSpaceToken (pyStrip l))],
                  acc := rs.acc ++ rs.cur.toList } := by
  simp [stanzaStep, h]

theorem stanzaStep_kv (rs : ReaderState) (l : String) (c : Stanza)
    (h1 : endsWithBrace (pyStrip l) = false)
    (h2 : strContains (pyStrip l) '=' = true)
    (hc : rs.cur = some c) :
    stanzaStep rs l =
      Except.ok { rs with
        cur := some (dictInsert (splitFirstEq (pyStrip l)).1 (splitFirstEq (pyStrip l)).2 c) } := by
  simp [stanzaStep, h1, h2, hc]

theorem stanzaStep_kv_none (rs : ReaderState) (l : String)
    (h1 : endsWithBrace (pyStrip l) = false)
    (h2 : strContains (pyStrip l) '=' = true)
    (hc : rs.cur = Option.none) :
    stanzaStep rs l = Except.error typeErrorMsg := by
  simp [stanzaStep, h1, h2, hc]

theorem stanzaStep_ignored (rs : ReaderState) (l : String)
    (h1 : endsWithBrace (pyStrip l) = false)
    (h2 : strContains (pyStrip l) '=' = false) :
    stanzaStep rs l = Except.ok rs := by
  simp [stanzaStep, h1, h2]

theorem nextStanzaAux_ignored (pre rest : List String) (rs : ReaderState)
    (hpre : ∀ l ∈ pre, endsWithBrace (pyStrip l) = false ∧ strContains (pyStrip l) '=' = false) :
    nextStanzaAux rs (pre ++ rest) = nextStanzaAux rs rest := by
  induction pre with
  | nil => rfl
  | cons a as ih =>
      have ha := hpre a (List.mem_cons_self a as)
      rw [List.cons_append, nextStanzaAux, stanzaStep_ignored rs a ha.1 ha.2]
      exact ih (fun l hl => hpre l (List.mem_cons_of_mem _ hl))

theorem takeWhile_append_mid {α : Type u} (p : α → Bool) (x : α) (l1 l2 : List α)
    (h1 : ∀ a ∈ l1, p a = true) (hx : p x = false) :
    (l1 ++ x :: l2).takeWhile p = l1 := by
  induction l1 with
  | nil => simp [List.takeWhile_cons, hx]
  | cons a as ih =>
      have ha := h1 a (List.mem_cons_self a as)
      simp [List.takeWhile_cons, ha, ih (fun b hb => h1 b (List.mem_cons_of_mem _ hb))]

theorem dropWhile_append_mid {α : Type u} (p : α → Bool) (x : α) (l1 l2 : List α)
    (h1 : ∀ a ∈ l1, p a = true) (hx : p x = false) :
    (l1 ++ x :: l2).dropWhile p = x :: l2 := by
  induction l1 with
  | nil => simp [List.dropWhile_cons, hx]
  | cons a as ih =>
      have ha := h1 a (List.mem_cons_self a as)
      simp [List.dropWhile_cons, ha, ih (fun b hb => h1 b (List.mem_cons_of_mem _ hb))]

theorem splitFirstEq_append (k v : String) (hk : strContains k '=' = false) :
    splitFirstEq (k ++ "=" ++ v) = (k, v) := by
  obtain ⟨kd⟩ := k
  obtain ⟨vd⟩ := v
  have hks : ∀ a ∈ kd, (fun c => decide (c ≠ '=')) a = true := by
    intro a ha
    simp only [decide_eq_true_eq]
    intro he
    rw [strContains] at hk
    simp only [List.any_eq_false, decide_eq_true_eq] at hk
    exact hk a ha he
  have hdata : (String.mk kd ++ "=" ++ String.mk vd).data = kd ++ '=' :: vd := by
    show (kd ++ ['=']) ++ vd = kd ++ '=' :: vd
    simp
  rw [splitFirstEq, hdata]
  rw [takeWhile_append_mid _ '=' kd vd hks (by simp),
      dropWhile_append_mid _ '=' kd vd hks (by simp)]
  simp

/-! ## Claim C3 -/

/-- C3: for every input stream whose first non-ignored line is a key=value
line occurring before any stanza-opening line, the whole parse fails closed:
`next_stanza` raises (models the `TypeError` from `cur[key] = val` with
`cur is None`), the build reports that error, and no snapshot is produced;
the stray line is never silently ignored. -/
theorem C3_keyvalue_before_stanza_fails (pre : List String) (kv : String) (rest : List String)
    (hpre : ∀ l ∈ pre, endsWithBrace (pyStrip l) = false ∧ strContains (pyStrip l) '=' = false)
    (hkv1 : strContains (pyStrip kv) '=' = true)
    (hkv2 : endsWithBrace (pyStrip kv) = false) :
    next_stanza (pre ++ kv :: rest) = Except.error typeErrorMsg
    ∧ nagiosBuild (pre ++ kv :: rest) = Except.error typeErrorMsg := by
  have h1 : next_stanza (pre ++ kv :: rest) = Except.error typeErrorMsg := by
    rw [next_stanza, nextStanzaAux_ignored pre (kv :: rest) _ hpre, nextStanzaAux,
        stanzaStep_kv_none _ _ hkv2 hkv1 rfl]
  refine ⟨h1, ?_⟩
  rw [nagiosBuild, h1]

/-- Witness for C3 at the spec's own example shape: blank and noise lines,
then `current_state=0` before any stanza opens. -/
theorem C3_keyvalue_before_stanza_fails_witness :
    next_stanza (["", "junk"] ++ "current_state=0" :: ["hoststatus \x7b"])
      = Except.error typeErrorMsg
    ∧ nagiosBuild (["", "junk"] ++ "current_state=0" :: ["hoststatus \x7b"])
      = Except.error typeErrorMsg :=
  C3_keyvalue_before_stanza_fails ["", "junk"] "current_state=0" ["hoststatus \x7b"]
    (by decide) (by decide) (by decide)

/-! ## Claim C8 -/

/-- C8 counterexample: the claim says the type tag of a new stanza is "the
line's first whitespace-delimited token".  On the line `a<TAB>b {` the code
takes `split(' ', 1)[0]`, which is `a<TAB>b`, while the first
whitespace-delimited token is `a`. -/
theorem C8_counterexample :
    next_stanza ["a\tb \x7b"] = Except.ok [[("type", "a\tb")]]
    ∧ firstWhitespaceToken (pyStrip "a\tb \x7b") = "a"
    ∧ ("a\tb" : String) ≠ "a" := by
  refine ⟨rfl, rfl, ?_⟩
  decide

/-- C8 (amended): the stanza reader segments its input as follows: a line
whose stripped form ends in the opening brace flushes any current stanza and
starts a new one whose type tag is the portion of the stripped line before
the first space character (not a general whitespace-delimited token);
otherwise a line containing `=` splits on the first `=` only (later `=`
characters stay in the value) and assigns that field into the current
stanza's dict; a line with neither brace nor separator leaves the state
unchanged; and at end of stream the pending stanza is flushed. -/
theorem C8_stanza_reader_amended :
    (∀ (rs : ReaderState) (l : String), endsWithBrace (pyStrip l) = true →
       stanzaStep rs l =
         Except.ok { cur := some [("type", firstSpaceToken (pyStrip l))],
                     acc := rs.acc ++ rs.cur.toList })
    ∧ (∀ (rs : ReaderState) (l : String) (c : Stanza), rs.cur = some c →
         endsWithBrace (pyStrip l) = false → strContains (pyStrip l) '=' = true →
         stanzaStep rs l =
           Except.ok { rs with
             cur := some (dictInsert (splitFirstEq (pyStrip l)).1
                            (splitFirstEq (pyStrip l)).2 c) })
    ∧ (∀ (k v : String), strContains k '=' = false → splitFirstEq (k ++ "=" ++ v) = (k, v))
    ∧ (∀ (rs : ReaderState) (l : String), endsWithBrace (pyStrip l) = false →
         strContains (pyStrip l) '=' = false → stanzaStep rs l = Except.ok rs)
    ∧ (∀ rs : ReaderState, nextStanzaAux rs [] = Except.ok (rs.acc ++ rs.cur.toList)) :=
  ⟨fun rs l h => stanzaStep_brace rs l h,
   fun rs l c hc h1 h2 => stanzaStep_kv rs l c h1 h2 hc,
   fun k v hk => splitFirstEq_append k v hk,
   fun rs l h1 h2 => stanzaStep_ignored rs l h1 h2,
   fun _ => rfl⟩

/-- Witness for C8 (amended), instantiating every clause on concrete lines:
a header line, a field line whose value contains a second `=`, a noise line,
and the end-of-stream flush. -/
theorem C8_stanza_reader_amended_witness :
    stanzaStep { cur := Option.none, acc := [] } "hoststatus \x7b"
      = Except.ok { cur := some [("type", "hoststatus")], acc := [] }
    ∧ stanzaStep { cur := some [("type", "hoststatus")], acc := [] } "note=a=b"
      = Except.ok { cur := some [("type", "hoststatus"), ("note", "a=b")], acc := [] }
    ∧ splitFirstEq ("note" ++ "=" ++ "a=b") = ("note", "a=b")
    ∧ stanzaStep { cur := some [("type", "hoststatus")], acc := [] } "noise"
      = Except.ok { cur := some [("type", "hoststatus")], acc := [] }
    ∧ nextStanzaAux { cur := some [("type", "hoststatus")], acc := [] } []
      = Except.ok [[("type", "hoststatus")]] := by
  have h := C8_stanza_reader_amended
  refine ⟨?_, ?_, h.2.2.1 "note" "a=b" (by decide), ?_, ?_⟩
  · have := h.1 { cur := Option.none, acc := [] } "hoststatus \x7b" (by decide)
    simpa using this
  · have := h.2.1 { cur := some [("type", "hoststatus")], acc := [] } "note=a=b"
      [("type", "hoststatus")] rfl (by decide) (by decide)
    simpa using this
  · exact h.2.2.2.1 { cur := some [("type", "hoststatus")], acc := [] } "noise"
      (by decide) (by decide)
  · exact h.2.2.2.2 { cur := some [("type", "hoststatus")], acc := [] }

/-! ## Claim C4 -/

/-- C4: `host_or_service` is a total lookup that returns the `Host` entity
for a present host when no service is asked for, the `Service` entity when
both host and service are present, and `None` (a value, never an exception)
whenever the host or the service is missing. -/
theorem C4_host_or_service_lookup (st : NagiosState) (h : Option String) (s : String)
    (hobj : Host) (inner : List (Option String × Service)) (svc : Service) :
    (dictGet h st.hosts = some hobj →
       st.host_or_service h Option.none = some (Entity.h hobj))
    ∧ (dictGet h st.hosts = Option.none →
       ∀ sv : Option String, st.host_or_service h sv = Option.none)
    ∧ (dictGet h st.hosts = some hobj → dictGet h st.services = some inner →
       dictGet (some s) inner = some svc →
       st.host_or_service h (some s) = some (Entity.s svc))
    ∧ (dictGet h st.hosts = some hobj → dictGet h st.services = Option.none →
       st.host_or_service h (some s) = Option.none)
    ∧ (dictGet h st.hosts = some hobj → dictGet h st.services = some inner →
       dictGet (some s) inner = Option.none →
       st.host_or_service h (some s) = Option.none) := by
  refine ⟨?_, ?_, ?_, ?_, ?_⟩
  · intro h1
    simp [NagiosState.host_or_service, h1]
  · intro h1 sv
    simp [NagiosState.host_or_service, h1]
  · intro h1 h2 h3
    simp [NagiosState.host_or_service, h1, h2, h3]
  · intro h1 h2
    simp [NagiosState.host_or_service, h1, h2]
  · intro h1 h2 h3
    simp [NagiosState.host_or_service, h1, h2, h3]

/-- Witness for C4 on a concrete two-stanza snapshot: present host, absent
host, present service, absent service, and absent host with a service name
all behave as stated (no case raises; missing targets give `None`). -/
theorem C4_host_or_service_lookup_witness :
    w4st.host_or_service (some "web1") Option.none = some (Entity.h w4host)
    ∧ w4st.host_or_service (some "nope") Option.none = Option.none
    ∧ w4st.host_or_service (some "web1") (some "http") = some (Entity.s w4svc)
    ∧ w4st.host_or_service (some "web1") (some "nosuch") = Option.none
    ∧ w4st.host_or_service (some "nope") (some "http") = Option.none := by
  refine ⟨?_, ?_, ?_, ?_, ?_⟩
  · exact (C4_host_or_service_lookup w4st (some "web1") "http" w4host w4inner w4svc).1 rfl
  · exact (C4_host_or_service_lookup w4st (some "nope") "http" w4host w4inner w4svc).2.1 rfl
      Option.none
  · exact (C4_host_or_service_lookup w4st (some "web1") "http" w4host w4inner
      w4svc).2.2.1 rfl rfl rfl
  · exact (C4_host_or_service_lookup w4st (some "web1") "nosuch" w4host w4inner
      w4svc).2.2.2.2 rfl rfl rfl
  · exact (C4_host_or_service_lookup w4st (some "nope") "http" w4host w4inner w4svc).2.1 rfl
      (some "http")

/-! ## Inversion and shape lemmas for the lookup and the attach phases -/

theorem hasKey_iff_mem_keys {α : Type u} {β : Type v} [DecidableEq α]
    (k : α) (d : List (α × β)) : hasKey k d = true ↔ k ∈ d.map Prod.fst := by
  induction d with
  | nil => simp [hasKey, dictGet]
  | cons p rest ih =>
      by_cases hp : p.1 = k
      · simp [hasKey, dictGet, hp]
      · unfold hasKey at ih ⊢
        rw [dictGet, if_neg hp]
        simp only [List.map_cons, List.mem_cons]
        constructor
        · intro h
          exact Or.inr (ih.mp h)
        · intro h
          rcases h with h | h
          · exact absurd h.symm hp
          · exact ih.mpr h

theorem hasKey_congr_keys {α : Type u} {β β' : Type v} [DecidableEq α]
    (d : List (α × β)) (d' : List (α × β'))
    (h : d.map Prod.fst = d'.map Prod.fst) (k : α) : hasKey k d = hasKey k d' := by
  by_cases hm : k ∈ d.map Prod.fst
  · rw [(hasKey_iff_mem_keys k d).mpr hm,
        (hasKey_iff_mem_keys k d').mpr (by rw [← h]; exact hm)]
  · have hb1 : hasKey k d = false := by
      cases hb : hasKey k d
      · rfl
      · exact absurd ((hasKey_iff_mem_keys k d).mp hb) hm
    have hb2 : hasKey k d' = false := by
      cases hb : hasKey k d'
      · rfl
      · refine absurd ((hasKey_iff_mem_keys k d').mp hb) ?_
        rw [← h]
        exact hm
    rw [hb1, hb2]

theorem hasKey_eq_false_iff {α : Type u} {β : Type v} [DecidableEq α]
    (k : α) (d : List (α × β)) : hasKey k d = false ↔ dictGet k d = Option.none := by
  unfold hasKey
  cases dictGet k d <;> simp

theorem hasKey_eq_true_iff {α : Type u} {β : Type v} [DecidableEq α]
    (k : α) (d : List (α × β)) : hasKey k d = true ↔ ∃ v, dictGet k d = some v := by
  unfold hasKey
  cases dictGet k d <;> simp

theorem hasKey_dictInsert_existing {α : Type u} {β : Type v} [DecidableEq α]
    (k k0 : α) (v : β) (d : List (α × β)) (h : hasKey k0 d = true) :
    hasKey k (dictInsert k0 v d) = hasKey k d := by
  rw [hasKey_dictInsert]
  by_cases he : k0 = k
  · rw [if_pos he, ← he, h]
  · rw [if_neg he]

theorem keys_dictInsert_existing {α : Type u} {β : Type v} [DecidableEq α]
    (k : α) (v : β) (d : List (α × β)) (h : hasKey k d = true) :
    (dictInsert k v d).map Prod.fst = d.map Prod.fst := by
  induction d with
  | nil => simp [hasKey, dictGet] at h
  | cons p rest ih =>
      by_cases hp : p.1 = k
      · simp [dictInsert, hp]
      · have h' : hasKey k rest = true := by
          unfold hasKey at h ⊢
          rw [dictGet, if_neg hp] at h
          exact h
        simp [dictInsert, hp, ih h']

theorem host_or_service_h_inv (st : NagiosState) (k s : Option String) (hobj : Host)
    (h : st.host_or_service k s = some (Entity.h hobj)) :
    s = Option.none ∧ dictGet k st.hosts = some hobj := by
  unfold NagiosState.host_or_service at h
  cases hk : dictGet k st.hosts with
  | none => simp [hk] at h
  | some h0 =>
      cases s with
      | none =>
          simp [hk] at h
          exact ⟨rfl, by rw [h]⟩
      | some sname =>
          cases hsv : dictGet k st.services with
          | none => simp [hk, hsv] at h
          | some inner =>
              cases hin : dictGet (some sname) inner with
              | none => simp [hk, hsv, hin] at h
              | some sobj => simp [hk, hsv, hin] at h

theorem host_or_service_s_inv (st : NagiosState) (k s : Option String) (sobj : Service)
    (h : st.host_or_service k s = some (Entity.s sobj)) :
    ∃ sname hobj inner, s = some sname ∧ dictGet k st.hosts = some hobj
      ∧ dictGet k st.services = some inner ∧ dictGet (some sname) inner = some sobj := by
  unfold NagiosState.host_or_service at h
  cases hk : dictGet k st.hosts with
  | none => simp [hk] at h
  | some h0 =>
      cases s with
      | none => simp [hk] at h
      | some sname =>
          cases hsv : dictGet k st.services with
          | none => simp [hk, hsv] at h
          | some inner =>
              cases hin : dictGet (some sname) inner with
              | none => simp [hk, hsv, hin] at h
              | some sobj' =>
                  simp [hk, hsv, hin] at h
                  exact ⟨sname, h0, inner, rfl, rfl, rfl, by rw [hin, h]⟩

theorem dictGet_updateService (h sk : Option String) (svc : Service)
    (services : List (Option String × List (Option String × Service))) (k : Option String) :
    dictGet k (updateService h sk svc services) =
      if h = k then (dictGet k services).map (fun inner => dictInsert sk svc inner)
      else dictGet k services := by
  unfold updateService
  cases hv : dictGet h services with
  | none =>
      by_cases he : h = k
      · rw [if_pos he, ← he, hv]; simp
      · rw [if_neg he]
  | some inner =>
      rw [dictGet_dictInsert]
      by_cases he : h = k
      · rw [if_pos he, if_pos he, ← he, hv]; simp
      · rw [if_neg he, if_neg he]

theorem dictGet_updateHostServiceCopy (h sk : Option String) (svc : Service)
    (hosts : List (Option String × Host)) (k : Option String) :
    dictGet k (updateHostServiceCopy h sk svc hosts) =
      if h = k then
        (dictGet k hosts).map (fun hobj => { hobj with services := dictInsert sk svc hobj.services })
      else dictGet k hosts := by
  unfold updateHostServiceCopy
  cases hv : dictGet h hosts with
  | none =>
      by_cases he : h = k
      · rw [if_pos he, ← he, hv]; simp
      · rw [if_neg he]
  | some hobj =>
      rw [dictGet_dictInsert]
      by_cases he : h = k
      · rw [if_pos he, if_pos he, ← he, hv]; simp
      · rw [if_neg he, if_neg he]

theorem hasKey_updateHostServiceCopy (h sk : Option String) (svc : Service)
    (hosts : List (Option String × Host)) (k : Option String) :
    hasKey k (updateHostServiceCopy h sk svc hosts) = hasKey k hosts := by
  unfold hasKey
  rw [dictGet_updateHostServiceCopy]
  by_cases he : h = k
  · rw [if_pos he]; cases dictGet k hosts <;> simp
  · rw [if_neg he]

/-- The key shape of the nested services dict: outer keys with, for each, the
inner key list. -/
def servicesShape (services : List (Option String × List (Option String × Service)))
    (k : Option String) : Option (List (Option String)) :=
  (dictGet k services).map (fun inner => inner.map Prod.fst)

theorem hasKey_of_servicesShape
    (s s' : List (Option String × List (Option String × Service)))
    (hs : ∀ k, servicesShape s' k = servicesShape s k) (k : Option String) :
    hasKey k s' = hasKey k s := by
  have := hs k
  unfold servicesShape at this
  unfold hasKey
  cases h1 : dictGet k s' <;> cases h2 : dictGet k s <;> rw [h1, h2] at this <;> simp_all

theorem inner_hasKey_of_servicesShape
    (s s' : List (Option String × List (Option String × Service)))
    (hs : ∀ k, servicesShape s' k = servicesShape s k) (k sk : Option String)
    (inner inner' : List (Option String × Service))
    (h1 : dictGet k s = some inner) (h2 : dictGet k s' = some inner') :
    hasKey sk inner' = hasKey sk inner := by
  have hkeys : inner'.map Prod.fst = inner.map Prod.fst := by
    have := hs k
    unfold servicesShape at this
    rw [h1, h2] at this
    simpa using this
  exact hasKey_congr_keys inner' inner hkeys sk

theorem host_or_service_isSome_congr (st st' : NagiosState)
    (hh : ∀ k, hasKey k st'.hosts = hasKey k st.hosts)
    (hs : ∀ k, servicesShape st'.services k = servicesShape st.services k) :
    ∀ (k s : Option String),
      (st'.host_or_service k s).isSome = (st.host_or_service k s).isSome := by
  intro k s
  have hhk := hh k
  cases hk : dictGet k st.hosts with
  | none =>
      have hk' : dictGet k st'.hosts = Option.none := by
        rw [← hasKey_eq_false_iff] at hk ⊢
        rw [hhk, hk]
      simp [NagiosState.host_or_service, hk, hk']
  | some hobj =>
      obtain ⟨hobj', hk'⟩ : ∃ h', dictGet k st'.hosts = some h' := by
        rw [← hasKey_eq_true_iff, hhk, hasKey_eq_true_iff]
        exact ⟨hobj, hk⟩
      cases s with
      | none => simp [NagiosState.host_or_service, hk, hk']
      | some sname =>
          have hsk := hs k
          unfold servicesShape at hsk
          cases hsv : dictGet k st.services with
          | none =>
              have hsv' : dictGet k st'.services = Option.none := by
                rw [hsv] at hsk
                simp only [Option.map_none'] at hsk
                exact Option.map_eq_none'.mp hsk
              simp [NagiosState.host_or_service, hk, hk', hsv, hsv']
          | some inner =>
              obtain ⟨inner', hsv'⟩ : ∃ i', dictGet k st'.services = some i' := by
                rw [hsv] at hsk
                cases hx : dictGet k st'.services with
                | none => rw [hx] at hsk; simp at hsk
                | some i' => exact ⟨i', rfl⟩
              have hik := inner_hasKey_of_servicesShape st.services st'.services hs k
                (some sname) inner inner' hsv hsv'
              cases hin : dictGet (some sname) inner with
              | none =>
                  have hin' : dictGet (some sname) inner' = Option.none := by
                    rw [← hasKey_eq_false_iff] at hin ⊢
                    rw [hik, hin]
                  simp [NagiosState.host_or_service, hk, hk', hsv, hsv', hin, hin']
              | some sobj =>
                  obtain ⟨sobj', hin'⟩ : ∃ x, dictGet (some sname) inner' = some x := by
                    rw [← hasKey_eq_true_iff, hik, hasKey_eq_true_iff]
                    exact ⟨sobj, hin⟩
                  simp [NagiosState.host_or_service, hk, hk', hsv, hsv', hin, hin']

/-! ## Invariants of the stanza-dispatch loop -/

theorem processStanza_ok_cases (st : NagiosState) (s : Stanza) (st' : NagiosState)
    (h : processStanza st s = Except.ok st') :
    (typS s = "hoststatus"
      ∧ st' = { st with
          hosts := dictInsert (dictGet "host_name" s) (Host.build s) st.hosts })
    ∨ (typS s = "servicestatus" ∧ st' = { st with services := insertService s st.services })
    ∨ (isCommentStanza s = true ∧ ∃ i, commentId s = some i
        ∧ st' = { st with comments := dictInsert i (Comment.build s i) st.comments })
    ∨ (isDowntimeStanza s = true ∧ ∃ i, downtimeId s = some i
        ∧ st' = { st with downtimes := dictInsert i (Downtime.build s i) st.downtimes })
    ∨ (isCommentStanza s = false ∧ isDowntimeStanza s = false ∧ typS s ≠ "hoststatus"
        ∧ typS s ≠ "servicestatus" ∧ st' = st) := by
  unfold processStanza at h
  by_cases h1 : typS s = "hoststatus"
  · rw [if_pos h1] at h
    exact Or.inl ⟨h1, (Except.ok.inj h).symm⟩
  rw [if_neg h1] at h
  by_cases h2 : typS s = "servicestatus"
  · rw [if_pos h2] at h
    exact Or.inr (Or.inl ⟨h2, (Except.ok.inj h).symm⟩)
  rw [if_neg h2] at h
  by_cases h3 : strEndsWith (typS s) "comment" = true
  · rw [if_pos h3] at h
    cases hid : commentId s with
    | none => rw [hid] at h; cases h
    | some i =>
        rw [hid] at h
        refine Or.inr (Or.inr (Or.inl ⟨?_, i, rfl, (Except.ok.inj h).symm⟩))
        simp [isCommentStanza, h1, h2, h3]
  rw [if_neg h3] at h
  by_cases h4 : strEndsWith (typS s) "downtime" = true
  · rw [if_pos h4] at h
    cases hid : downtimeId s with
    | none => rw [hid] at h; cases h
    | some i =>
        rw [hid] at h
        refine Or.inr (Or.inr (Or.inr (Or.inl ⟨?_, i, rfl, (Except.ok.inj h).symm⟩)))
        simp [isDowntimeStanza, h1, h2, h3, h4]
  rw [if_neg h4] at h
  refine Or.inr (Or.inr (Or.inr (Or.inr ⟨?_, ?_, h1, h2, (Except.ok.inj h).symm⟩)))
  · simp [isCommentStanza, h1, h2, h3]
  · simp [isDowntimeStanza, h1, h2, h3, h4]

theorem processStanzasAux_cons_ok (st0 st : NagiosState) (s : Stanza) (rest : List Stanza)
    (h : processStanzasAux st0 (s :: rest) = Except.ok st) :
    ∃ st1, processStanza st0 s = Except.ok st1 ∧ processStanzasAux st1 rest = Except.ok st := by
  rw [processStanzasAux] at h
  cases hstep : processStanza st0 s with
  | error e => rw [hstep] at h; cases h
  | ok st1 => rw [hstep] at h; exact ⟨st1, rfl, h⟩

theorem processStanzasAux_nil_ok (st0 st : NagiosState)
    (h : processStanzasAux st0 [] = Except.ok st) : st = st0 :=
  (Except.ok.inj h).symm

theorem processStanzasAux_hosts_not_mem (l : List Stanza) :
    ∀ (st0 st : NagiosState) (hn : Option String),
    processStanzasAux st0 l = Except.ok st →
    hasKey hn st0.hosts = false →
    (∀ s ∈ l, typS s = "hoststatus" → dictGet "host_name" s ≠ hn) →
    hasKey hn st.hosts = false := by
  induction l with
  | nil =>
      intro st0 st hn hok h0 _
      rw [processStanzasAux_nil_ok st0 st hok]
      exact h0
  | cons s rest ih =>
      intro st0 st hn hok h0 hno
      obtain ⟨st1, hstep, hrest⟩ := processStanzasAux_cons_ok st0 st s rest hok
      have h1 : hasKey hn st1.hosts = false := by
        rcases processStanza_ok_cases st0 s st1 hstep with
          ⟨ht, he⟩ | ⟨ht, he⟩ | ⟨ht, i, hi, he⟩ | ⟨ht, i, hi, he⟩ | ⟨_, _, _, _, he⟩
        · subst he
          show hasKey hn (dictInsert (dictGet "host_name" s) (Host.build s) st0.hosts) = false
          rw [hasKey_dictInsert,
              if_neg (hno s (List.mem_cons_self s rest) ht), h0]
        · subst he; exact h0
        · subst he; exact h0
        · subst he; exact h0
        · subst he; exact h0
      exact ih st1 st hn hrest h1 (fun x hx => hno x (List.mem_cons_of_mem _ hx))

theorem processStanzasAux_hosts_mem (l : List Stanza) :
    ∀ (st0 st : NagiosState) (hn : Option String),
    processStanzasAux st0 l = Except.ok st →
    (hasKey hn st0.hosts = true
      ∨ ∃ s ∈ l, typS s = "hoststatus" ∧ dictGet "host_name" s = hn) →
    hasKey hn st.hosts = true := by
  induction l with
  | nil =>
      intro st0 st hn hok h0
      rw [processStanzasAux_nil_ok st0 st hok]
      rcases h0 with h0 | ⟨s, hs, _⟩
      · exact h0
      · simp at hs
  | cons s rest ih =>
      intro st0 st hn hok h0
      obtain ⟨st1, hstep, hrest⟩ := processStanzasAux_cons_ok st0 st s rest hok
      rcases h0 with h0 | ⟨x, hx, hxt, hxh⟩
      · refine ih st1 st hn hrest (Or.inl ?_)
        rcases processStanza_ok_cases st0 s st1 hstep with
          ⟨ht, he⟩ | ⟨ht, he⟩ | ⟨ht, i, hi, he⟩ | ⟨ht, i, hi, he⟩ | ⟨_, _, _, _, he⟩
        · subst he
          show hasKey hn (dictInsert (dictGet "host_name" s) (Host.build s) st0.hosts) = true
          rw [hasKey_dictInsert]
          by_cases hk : dictGet "host_name" s = hn
          · rw [if_pos hk]
          · rw [if_neg hk, h0]
        · subst he; exact h0
        · subst he; exact h0
        · subst he; exact h0
        · subst he; exact h0
      · rcases List.mem_cons.mp hx with hx1 | hx1
        · subst hx1
          refine ih st1 st hn hrest (Or.inl ?_)
          rcases processStanza_ok_cases st0 x st1 hstep with
            ⟨ht, he⟩ | ⟨ht, he⟩ | ⟨ht, i, hi, he⟩ | ⟨ht, i, hi, he⟩ | ⟨_, _, ht, _, he⟩
          · subst he
            show hasKey hn (dictInsert (dictGet "host_name" x) (Host.build x) st0.hosts) = true
            rw [hasKey_dictInsert, if_pos hxh]
          · rw [hxt] at ht; simp at ht
          · rw [isCommentStanza, hxt] at ht; simp at ht
          · rw [isDowntimeStanza, hxt] at ht; simp at ht
          · exact absurd hxt ht
        · exact ih st1 st hn hrest (Or.inr ⟨x, hx1, hxt, hxh⟩)

theorem processStanzasAux_services_mem (l : List Stanza) :
    ∀ (st0 st : NagiosState) (hn : Option String),
    processStanzasAux st0 l = Except.ok st →
    ((∃ inner, dictGet hn st0.services = some inner ∧ inner ≠ [])
      ∨ ∃ s ∈ l, typS s = "servicestatus" ∧ dictGet "host_name" s = hn) →
    ∃ inner, dictGet hn st.services = some inner ∧ inner ≠ [] := by
  induction l with
  | nil =>
      intro st0 st hn hok h0
      rw [processStanzasAux_nil_ok st0 st hok]
      rcases h0 with h0 | ⟨s, hs, _⟩
      · exact h0
      · simp at hs
  | cons s rest ih =>
      intro st0 st hn hok h0
      obtain ⟨st1, hstep, hrest⟩ := processStanzasAux_cons_ok st0 st s rest hok
      have step_keeps : ∀ st0' : NagiosState,
          (∃ inner, dictGet hn st0'.services = some inner ∧ inner ≠ []) →
          processStanza st0' s = Except.ok st1 →
          ∃ inner, dictGet hn st1.services = some inner ∧ inner ≠ [] := by
        intro st0' hin hstep'
        obtain ⟨inner, hi1, hi2⟩ := hin
        rcases processStanza_ok_cases st0' s st1 hstep' with
          ⟨ht, he⟩ | ⟨ht, he⟩ | ⟨ht, i, hi, he⟩ | ⟨ht, i, hi, he⟩ | ⟨_, _, _, _, he⟩
        · subst he; exact ⟨inner, hi1, hi2⟩
        · subst he
          show ∃ inner', dictGet hn (insertService s st0'.services) = some inner' ∧ inner' ≠ []
          rw [insertService, dictGet_dictInsert]
          by_cases hk : dictGet "host_name" s = hn
          · rw [if_pos hk]
            exact ⟨_, rfl, dictInsert_ne_nil _ _ _⟩
          · rw [if_neg hk]
            exact ⟨inner, hi1, hi2⟩
        · subst he; exact ⟨inner, hi1, hi2⟩
        · subst he; exact ⟨inner, hi1, hi2⟩
        · subst he; exact ⟨inner, hi1, hi2⟩
      rcases h0 with h0 | ⟨x, hx, hxt, hxh⟩
      · exact ih st1 st hn hrest (Or.inl (step_keeps st0 h0 hstep))
      · rcases List.mem_cons.mp hx with hx1 | hx1
        · subst hx1
          refine ih st1 st hn hrest (Or.inl ?_)
          rcases processStanza_ok_cases st0 x st1 hstep with
            ⟨ht, he⟩ | ⟨ht, he⟩ | ⟨ht, i, hi, he⟩ | ⟨ht, i, hi, he⟩ | ⟨_, _, _, ht, he⟩
          · rw [hxt] at ht; simp at ht
          · subst he
            show ∃ inner', dictGet hn (insertService x st0.services) = some inner' ∧ inner' ≠ []
            rw [insertService, dictGet_dictInsert, hxh, if_pos rfl]
            exact ⟨_, rfl, dictInsert_ne_nil _ _ _⟩
          · rw [isCommentStanza, hxt] at ht; simp at ht
          · rw [isDowntimeStanza, hxt] at ht; simp at ht
          · exact absurd hxt ht
        · exact ih st1 st hn hrest (Or.inr ⟨x, hx1, hxt, hxh⟩)

theorem processStanzasAux_services_hasKey (l : List Stanza) :
    ∀ (st0 st : NagiosState) (hn : Option String),
    processStanzasAux st0 l = Except.ok st →
    (hasKey hn st0.services = true
      ∨ ∃ s ∈ l, typS s = "servicestatus" ∧ dictGet "host_name" s = hn) →
    hasKey hn st.services = true := by
  intro st0 st hn hok h0
  rcases h0 with h0 | hex
  · induction l generalizing st0 with
    | nil =>
        rw [processStanzasAux_nil_ok st0 st hok]
        exact h0
    | cons s rest ih =>
        obtain ⟨st1, hstep, hrest⟩ := processStanzasAux_cons_ok st0 st s rest hok
        refine ih st1 hrest ?_
        rcases processStanza_ok_cases st0 s st1 hstep with
          ⟨ht, he⟩ | ⟨ht, he⟩ | ⟨ht, i, hi, he⟩ | ⟨ht, i, hi, he⟩ | ⟨_, _, _, _, he⟩
        · subst he; exact h0
        · subst he
          show hasKey hn (insertService s st0.services) = true
          rw [insertService, hasKey_dictInsert]
          by_cases hk : dictGet "host_name" s = hn
          · rw [if_pos hk]
          · rw [if_neg hk, h0]
        · subst he; exact h0
        · subst he; exact h0
        · subst he; exact h0
  · obtain ⟨inner, hi, _⟩ := processStanzasAux_services_mem l st0 st hn hok (Or.inr hex)
    rw [hasKey_eq_true_iff]
    exact ⟨inner, hi⟩

theorem not_comment_and_downtime (s : Stanza) :
    isCommentStanza s = true → isDowntimeStanza s = true → False := by
  intro h1 h2
  rw [isCommentStanza] at h1
  rw [isDowntimeStanza] at h2
  simp at h1 h2
  have := h2.1.2
  rw [h1.2] at this
  cases this

theorem processStanzasAux_comments_last (l : List Stanza) :
    ∀ (st0 st : NagiosState) (i : Int),
    processStanzasAux st0 l = Except.ok st →
    dictGet i st.comments =
      (match lastCommentStanza i l with
       | some s => some (Comment.build s i)
       | Option.none => dictGet i st0.comments) := by
  induction l with
  | nil =>
      intro st0 st i hok
      rw [processStanzasAux_nil_ok st0 st hok, lastCommentStanza]
  | cons s rest ih =>
      intro st0 st i hok
      obtain ⟨st1, hstep, hrest⟩ := processStanzasAux_cons_ok st0 st s rest hok
      have hih := ih st1 st i hrest
      rw [lastCommentStanza]
      cases hlast : lastCommentStanza i rest with
      | some r =>
          rw [hlast] at hih
          rw [hih]
      | none =>
          rw [hlast] at hih
          rw [hih]
          rcases processStanza_ok_cases st0 s st1 hstep with
            ⟨ht, he⟩ | ⟨ht, he⟩ | ⟨ht, j, hj, he⟩ | ⟨ht, j, hj, he⟩ | ⟨ht, _, _, _, he⟩
          · subst he
            rw [if_neg]
            intro hcon
            rw [isCommentStanza, ht] at hcon
            simp at hcon
          · subst he
            rw [if_neg]
            intro hcon
            rw [isCommentStanza, ht] at hcon
            simp at hcon
          · subst he
            show dictGet i (dictInsert j (Comment.build s j) st0.comments) = _
            rw [dictGet_dictInsert]
            by_cases hji : j = i
            · subst hji
              rw [if_pos rfl, if_pos ⟨ht, hj⟩]
            · rw [if_neg hji, if_neg]
              intro hcon
              rw [hj] at hcon
              exact hji (Option.some.inj hcon.2)
          · subst he
            rw [if_neg]
            intro hcon
            exact not_comment_and_downtime s hcon.1 ht
          · subst he
            rw [if_neg]
            intro hcon
            rw [hcon.1] at ht
            cases ht
  
theorem processStanzasAux_downtimes_last (l : List Stanza) :
    ∀ (st0 st : NagiosState) (i : Int),
    processStanzasAux st0 l = Except.ok st →
    dictGet i st.downtimes =
      (match lastDowntimeStanza i l with
       | some s => some (Downtime.build s i)
       | Option.none => dictGet i st0.downtimes) := by
  induction l with
  | nil =>
      intro st0 st i hok
      rw [processStanzasAux_nil_ok st0 st hok, lastDowntimeStanza]
  | cons s rest ih =>
      intro st0 st i hok
      obtain ⟨st1, hstep, hrest⟩ := processStanzasAux_cons_ok st0 st s rest hok
      have hih := ih st1 st i hrest
      rw [lastDowntimeStanza]
      cases hlast : lastDowntimeStanza i rest with
      | some r =>
          rw [hlast] at hih
          rw [hih]
      | none =>
          rw [hlast] at hih
          rw [hih]
          rcases processStanza_ok_cases st0 s st1 hstep with
            ⟨ht, he⟩ | ⟨ht, he⟩ | ⟨ht, j, hj, he⟩ | ⟨ht, j, hj, he⟩ | ⟨_, ht, _, _, he⟩
          · subst he
            rw [if_neg]
            intro hcon
            rw [isDowntimeStanza, ht] at hcon
            simp at hcon
          · subst he
            rw [if_neg]
            intro hcon
            rw [isDowntimeStanza, ht] at hcon
            simp at hcon
          · subst he
            rw [if_neg]
            intro hcon
            exact not_comment_and_downtime s ht hcon.1
          · subst he
            show dictGet i (dictInsert j (Downtime.build s j) st0.downtimes) = _
            rw [dictGet_dictInsert]
            by_cases hji : j = i
            · subst hji
              rw [if_pos rfl, if_pos ⟨ht, hj⟩]
            · rw [if_neg hji, if_neg]
              intro hcon
              rw [hj] at hcon
              exact hji (Option.some.inj hcon.2)
          · subst he
            rw [if_neg]
            intro hcon
            rw [hcon.1] at ht
            cases ht

theorem processStanzasAux_comments_nodup (l : List Stanza) :
    ∀ (st0 st : NagiosState),
    processStanzasAux st0 l = Except.ok st →
    (st0.comments.map Prod.fst).Nodup → (st.comments.map Prod.fst).Nodup := by
  induction l with
  | nil =>
      intro st0 st hok h0
      rw [processStanzasAux_nil_ok st0 st hok]
      exact h0
  | cons s rest ih =>
      intro st0 st hok h0
      obtain ⟨st1, hstep, hrest⟩ := processStanzasAux_cons_ok st0 st s rest hok
      refine ih st1 st hrest ?_
      rcases processStanza_ok_cases st0 s st1 hstep with
        ⟨ht, he⟩ | ⟨ht, he⟩ | ⟨ht, i, hi, he⟩ | ⟨ht, i, hi, he⟩ | ⟨_, _, _, _, he⟩ <;> subst he
      · exact h0
      · exact h0
      · exact nodup_keys_dictInsert i (Comment.build s i) st0.comments h0
      · exact h0
      · exact h0

theorem processStanzasAux_downtimes_nodup (l : List Stanza) :
    ∀ (st0 st : NagiosState),
    processStanzasAux st0 l = Except.ok st →
    (st0.downtimes.map Prod.fst).Nodup → (st.downtimes.map Prod.fst).Nodup := by
  induction l with
  | nil =>
      intro st0 st hok h0
      rw [processStanzasAux_nil_ok st0 st hok]
      exact h0
  | cons s rest ih =>
      intro st0 st hok h0
      obtain ⟨st1, hstep, hrest⟩ := processStanzasAux_cons_ok st0 st s rest hok
      refine ih st1 st hrest ?_
      rcases processStanza_ok_cases st0 s st1 hstep with
        ⟨ht, he⟩ | ⟨ht, he⟩ | ⟨ht, i, hi, he⟩ | ⟨ht, i, hi, he⟩ | ⟨_, _, _, _, he⟩ <;> subst he
      · exact h0
      · exact h0
      · exact h0
      · exact nodup_keys_dictInsert i (Downtime.build s i) st0.downtimes h0
      · exact h0

theorem processStanzasAux_comments_id (l : List Stanza) :
    ∀ (st0 st : NagiosState),
    processStanzasAux st0 l = Except.ok st →
    (∀ p ∈ st0.comments, p.2.comment_id = p.1) →
    ∀ p ∈ st.comments, p.2.comment_id = p.1 := by
  induction l with
  | nil =>
      intro st0 st hok h0
      rw [processStanzasAux_nil_ok st0 st hok]
      exact h0
  | cons s rest ih =>
      intro st0 st hok h0
      obtain ⟨st1, hstep, hrest⟩ := processStanzasAux_cons_ok st0 st s rest hok
      refine ih st1 st hrest ?_
      rcases processStanza_ok_cases st0 s st1 hstep with
        ⟨ht, he⟩ | ⟨ht, he⟩ | ⟨ht, i, hi, he⟩ | ⟨ht, i, hi, he⟩ | ⟨_, _, _, _, he⟩ <;> subst he
      · exact h0
      · exact h0
      · intro p hp
        rcases mem_dictInsert p i (Comment.build s i) st0.comments hp with h1 | h1
        · rw [h1]
          rfl
        · exact h0 p h1
      · exact h0
      · exact h0

theorem processStanzasAux_downtimes_id (l : List Stanza) :
    ∀ (st0 st : NagiosState),
    processStanzasAux st0 l = Except.ok st →
    (∀ p ∈ st0.downtimes, p.2.downtime_id = p.1) →
    ∀ p ∈ st.downtimes, p.2.downtime_id = p.1 := by
  induction l with
  | nil =>
      intro st0 st hok h0
      rw [processStanzasAux_nil_ok st0 st hok]
      exact h0
  | cons s rest ih =>
      intro st0 st hok h0
      obtain ⟨st1, hstep, hrest⟩ := processStanzasAux_cons_ok st0 st s rest hok
      refine ih st1 st hrest ?_
      rcases processStanza_ok_cases st0 s st1 hstep with
        ⟨ht, he⟩ | ⟨ht, he⟩ | ⟨ht, i, hi, he⟩ | ⟨ht, i, hi, he⟩ | ⟨_, _, _, _, he⟩ <;> subst he
      · exact h0
      · exact h0
      · exact h0
      · intro p hp
        rcases mem_dictInsert p i (Downtime.build s i) st0.downtimes hp with h1 | h1
        · rw [h1]
          rfl
        · exact h0 p h1
      · exact h0

theorem processStanzasAux_hosts_clean (l : List Stanza) :
    ∀ (st0 st : NagiosState),
    processStanzasAux st0 l = Except.ok st →
    (∀ p ∈ st0.hosts, p.2.services = [] ∧ p.2.comments = [] ∧ p.2.downtimes = []) →
    ∀ p ∈ st.hosts, p.2.services = [] ∧ p.2.comments = [] ∧ p.2.downtimes = [] := by
  induction l with
  | nil =>
      intro st0 st hok h0
      rw [processStanzasAux_nil_ok st0 st hok]
      exact h0
  | cons s rest ih =>
      intro st0 st hok h0
      obtain ⟨st1, hstep, hrest⟩ := processStanzasAux_cons_ok st0 st s rest hok
      refine ih st1 st hrest ?_
      rcases processStanza_ok_cases st0 s st1 hstep with
        ⟨ht, he⟩ | ⟨ht, he⟩ | ⟨ht, i, hi, he⟩ | ⟨ht, i, hi, he⟩ | ⟨_, _, _, _, he⟩ <;> subst he
      · intro p hp
        rcases mem_dictInsert p (dictGet "host_name" s) (Host.build s) st0.hosts hp with h1 | h1
        · rw [h1]
          exact ⟨rfl, rfl, rfl⟩
        · exact h0 p h1
      · exact h0
      · exact h0
      · exact h0
      · exact h0

theorem processStanzasAux_services_clean (l : List Stanza) :
    ∀ (st0 st : NagiosState),
    processStanzasAux st0 l = Except.ok st →
    (∀ p ∈ st0.services, ∀ q ∈ p.2, q.2.comments = [] ∧ q.2.downtimes = []) →
    ∀ p ∈ st.services, ∀ q ∈ p.2, q.2.comments = [] ∧ q.2.downtimes = [] := by
  induction l with
  | nil =>
      intro st0 st hok h0
      rw [processStanzasAux_nil_ok st0 st hok]
      exact h0
  | cons s rest ih =>
      intro st0 st hok h0
      obtain ⟨st1, hstep, hrest⟩ := processStanzasAux_cons_ok st0 st s rest hok
      refine ih st1 st hrest ?_
      rcases processStanza_ok_cases st0 s st1 hstep with
        ⟨ht, he⟩ | ⟨ht, he⟩ | ⟨ht, i, hi, he⟩ | ⟨ht, i, hi, he⟩ | ⟨_, _, _, _, he⟩ <;> subst he
      · exact h0
      · intro p hp
        rw [insertService] at hp
        rcases mem_dictInsert p (dictGet "host_name" s) _ st0.services hp with h1 | h1
        · rw [h1]
          intro q hq
          rcases mem_dictInsert q (dictGet "service_description" s) (Service.build s) _ hq
            with h2 | h2
          · rw [h2]
            exact ⟨rfl, rfl⟩
          · cases hbase : dictGet (dictGet "host_name" s) st0.services with
            | none =>
                rw [hbase] at h2
                simp at h2
            | some inner =>
                rw [hbase] at h2
                exact h0 _ (dictGet_mem hbase) q h2
        · exact h0 p h1
      · exact h0
      · exact h0
      · exact h0

/-! ## Facts about the attach phases -/

theorem host_or_service_none_of_no_host (st : NagiosState) (k s : Option String)
    (h : dictGet k st.hosts = Option.none) : st.host_or_service k s = Option.none := by
  unfold NagiosState.host_or_service
  rw [h]

theorem attachOneHostServices_ok_facts (l : List (Option String × Service)) :
    ∀ (st st' : NagiosState) (hk : Option String),
    attachOneHostServices st hk l = Except.ok st' →
    st'.services = st.services ∧ st'.comments = st.comments ∧ st'.downtimes = st.downtimes
    ∧ (∀ k, hasKey k st'.hosts = hasKey k st.hosts)
    ∧ (∀ k hobj', dictGet k st'.hosts = some hobj' →
        ∃ hobj, dictGet k st.hosts = some hobj ∧ hobj'.comments = hobj.comments
          ∧ hobj'.downtimes = hobj.downtimes) := by
  induction l with
  | nil =>
      intro st st' hk h
      rw [attachOneHostServices] at h
      have he := Except.ok.inj h
      subst he
      exact ⟨rfl, rfl, rfl, fun _ => rfl, fun k hobj' hget => ⟨hobj', hget, rfl, rfl⟩⟩
  | cons q rest ih =>
      intro st st' hk h
      rw [attachOneHostServices] at h
      cases hres : st.host_or_service hk Option.none with
      | none => rw [hres] at h; cases h
      | some e =>
          cases e with
          | s sobj => rw [hres] at h; cases h
          | h hobj =>
              rw [hres] at h
              have hhost := (host_or_service_h_inv st hk Option.none hobj hres).2
              have hfacts := ih _ st' hk h
              refine ⟨hfacts.1, hfacts.2.1, hfacts.2.2.1, ?_, ?_⟩
              · intro k
                rw [hfacts.2.2.2.1 k]
                show hasKey k (dictInsert hk (hobj.attach_service q.2) st.hosts) = hasKey k st.hosts
                exact hasKey_dictInsert_existing k hk _ st.hosts
                  (by rw [hasKey_eq_true_iff]; exact ⟨hobj, hhost⟩)
              · intro k hobj'' hget
                obtain ⟨h1, hget1, hc1, hd1⟩ := hfacts.2.2.2.2 k hobj'' hget
                have hget1' : dictGet k (dictInsert hk (hobj.attach_service q.2) st.hosts)
                    = some h1 := hget1
                rw [dictGet_dictInsert] at hget1'
                by_cases hkk : hk = k
                · rw [if_pos hkk] at hget1'
                  have hh1 : h1 = hobj.attach_service q.2 := (Option.some.inj hget1').symm
                  refine ⟨hobj, by rw [← hkk]; exact hhost, ?_, ?_⟩
                  · rw [hc1, hh1]; rfl
                  · rw [hd1, hh1]; rfl
                · rw [if_neg hkk] at hget1'
                  exact ⟨h1, hget1', hc1, hd1⟩

theorem attachServicesAux_ok_facts (entries : List (Option String × List (Option String × Service))) :
    ∀ (st st' : NagiosState),
    attachServicesAux st entries = Except.ok st' →
    st'.services = st.services ∧ st'.comments = st.comments ∧ st'.downtimes = st.downtimes
    ∧ (∀ k, hasKey k st'.hosts = hasKey k st.hosts)
    ∧ (∀ k hobj', dictGet k st'.hosts = some hobj' →
        ∃ hobj, dictGet k st.hosts = some hobj ∧ hobj'.comments = hobj.comments
          ∧ hobj'.downtimes = hobj.downtimes) := by
  induction entries with
  | nil =>
      intro st st' h
      rw [attachServicesAux] at h
      have he := Except.ok.inj h
      subst he
      exact ⟨rfl, rfl, rfl, fun _ => rfl, fun k hobj' hget => ⟨hobj', hget, rfl, rfl⟩⟩
  | cons q rest ih =>
      intro st st' h
      rw [attachServicesAux] at h
      cases hone : attachOneHostServices st q.1 q.2 with
      | error e => rw [hone] at h; cases h
      | ok st1 =>
          rw [hone] at h
          have f1 := attachOneHostServices_ok_facts q.2 st st1 q.1 hone
          have f2 := ih st1 st' h
          refine ⟨f2.1.trans f1.1, f2.2.1.trans f1.2.1, f2.2.2.1.trans f1.2.2.1, ?_, ?_⟩
          · intro k
            rw [f2.2.2.2.1 k, f1.2.2.2.1 k]
          · intro k hobj'' hget
            obtain ⟨h1, hget1, hc1, hd1⟩ := f2.2.2.2.2 k hobj'' hget
            obtain ⟨h0, hget0, hc0, hd0⟩ := f1.2.2.2.2 k h1 hget1
            exact ⟨h0, hget0, hc1.trans hc0, hd1.trans hd0⟩

theorem attachServicesAux_dangling (entries : List (Option String × List (Option String × Service))) :
    ∀ (st : NagiosState) (hn : Option String) (inner : List (Option String × Service)),
    (hn, inner) ∈ entries → inner ≠ [] → hasKey hn st.hosts = false →
    exceptIsOk (attachServicesAux st entries) = false := by
  induction entries with
  | nil =>
      intro st hn inner hmem
      simp at hmem
  | cons q rest ih =>
      intro st hn inner hmem hne hnk
      rcases List.mem_cons.mp hmem with h1 | h1
      · subst h1
        rw [attachServicesAux]
        cases inner with
        | nil => exact absurd rfl hne
        | cons x xs =>
            rw [attachOneHostServices,
                host_or_service_none_of_no_host st hn Option.none
                  ((hasKey_eq_false_iff hn st.hosts).mp hnk)]
            rfl
      · rw [attachServicesAux]
        cases hone : attachOneHostServices st q.1 q.2 with
        | error e => rfl
        | ok st1 =>
            have f1 := attachOneHostServices_ok_facts q.2 st st1 q.1 hone
            refine ih st1 hn inner h1 hne ?_
            rw [f1.2.2.2.1 hn, hnk]

/-! ## Claim C1 -/

/-- C1 counterexample: the claim says a servicestatus stanza naming a host
with no hoststatus stanza is dropped silently and construction completes.
On such an input the build instead fails: `host_or_service` returns `None`
and `None.attach_service(...)` raises, so no snapshot is produced. -/
theorem C1_counterexample :
    next_stanza c1lines = Except.ok c1stanzas
    ∧ (∃ s ∈ c1stanzas, typS s = "servicestatus" ∧ dictGet "host_name" s = some "web1")
    ∧ (∀ s ∈ c1stanzas, typS s ≠ "hoststatus")
    ∧ nagiosBuild c1lines = Except.error attachServiceErrMsg := by
  refine ⟨rfl, ?_, ?_, rfl⟩ <;> decide

/-- C1 (amended): for every input in which a servicestatus stanza names a
host that never appears as a hoststatus stanza, snapshot construction fails
fatally (the `AttributeError` from `None.attach_service`, or an earlier parse
error) and no snapshot is produced — so in particular the dangling service
never appears under any host, but not by silent dropping. -/
theorem C1_dangling_service_fatal (lines : List String) (stanzas : List Stanza)
    (hn : Option String)
    (hp : next_stanza lines = Except.ok stanzas)
    (hsvc : ∃ s ∈ stanzas, typS s = "servicestatus" ∧ dictGet "host_name" s = hn)
    (hno : ∀ s ∈ stanzas, typS s = "hoststatus" → dictGet "host_name" s ≠ hn) :
    exceptIsOk (nagiosBuild lines) = false := by
  simp only [nagiosBuild, hp]
  cases hps : processStanzas stanzas with
  | error e => rfl
  | ok st =>
      have hh : hasKey hn st.hosts = false :=
        processStanzasAux_hosts_not_mem stanzas initState st hn hps rfl hno
      obtain ⟨inner, hin, hne⟩ :=
        processStanzasAux_services_mem stanzas initState st hn hps (Or.inr hsvc)
      have hmem : (hn, inner) ∈ st.services := dictGet_mem hin
      have herr := attachServicesAux_dangling st.services st hn inner hmem hne hh
      cases has : st.attachServices with
      | error e => simp [exceptIsOk, has]
      | ok st1 =>
          rw [NagiosState.attachServices] at has
          rw [has] at herr
          simp [exceptIsOk] at herr

/-- Witness for C1 (amended) on the concrete dangling-service input. -/
theorem C1_dangling_service_fatal_witness :
    exceptIsOk (nagiosBuild c1lines) = false :=
  C1_dangling_service_fatal c1lines c1stanzas (some "web1") rfl (by decide) (by decide)

theorem isSome_false_eq_none {α : Type u} (o : Option α) (h : o.isSome = false) :
    o = Option.none := by
  cases o with
  | none => rfl
  | some v => cases h

theorem servicesShape_updateService (h sk : Option String) (svc : Service)
    (services : List (Option String × List (Option String × Service)))
    (inner : List (Option String × Service))
    (hin : dictGet h services = some inner) (hk : hasKey sk inner = true) :
    ∀ k, servicesShape (updateService h sk svc services) k = servicesShape services k := by
  intro k
  unfold servicesShape
  rw [dictGet_updateService]
  by_cases he : h = k
  · rw [if_pos he, ← he, hin]
    simp [keys_dictInsert_existing sk svc inner hk]
  · rw [if_neg he]

theorem shape_attach_host (st : NagiosState) (hk : Option String) (newh : Host) (hobj : Host)
    (hh : dictGet hk st.hosts = some hobj) :
    ∀ k, hasKey k (dictInsert hk newh st.hosts) = hasKey k st.hosts :=
  fun k => hasKey_dictInsert_existing k hk newh st.hosts
    (by rw [hasKey_eq_true_iff]; exact ⟨hobj, hh⟩)

theorem attachCommentsAux_ok_facts (l : List (Int × Comment)) :
    ∀ (st st' : NagiosState),
    attachCommentsAux st l = Except.ok st' →
    st'.comments = st.comments ∧ st'.downtimes = st.downtimes
    ∧ (∀ k, hasKey k st'.hosts = hasKey k st.hosts)
    ∧ (∀ k, servicesShape st'.services k = servicesShape st.services k) := by
  induction l with
  | nil =>
      intro st st' h
      rw [attachCommentsAux] at h
      have he := Except.ok.inj h
      subst he
      exact ⟨rfl, rfl, fun _ => rfl, fun _ => rfl⟩
  | cons q rest ih =>
      intro st st' h
      obtain ⟨i0, c⟩ := q
      rw [attachCommentsAux] at h
      cases hres : st.host_or_service c.host c.service with
      | none => rw [hres] at h; cases h
      | some e =>
          cases e with
          | h hobj =>
              rw [hres] at h
              have hhost := (host_or_service_h_inv st _ _ hobj hres).2
              have f := ih _ st' h
              refine ⟨f.1, f.2.1, ?_, f.2.2.2⟩
              intro k
              rw [f.2.2.1 k]
              exact shape_attach_host st c.host (hobj.attach_comment c) hobj hhost k
          | s sobj =>
              rw [hres] at h
              obtain ⟨sname, hobj, inner, hsv, hh, hsvc, hin⟩ :=
                host_or_service_s_inv st _ _ sobj hres
              have f := ih _ st' h
              refine ⟨f.1, f.2.1, ?_, ?_⟩
              · intro k
                rw [f.2.2.1 k]
                exact hasKey_updateHostServiceCopy c.host sobj.service
                  (sobj.attach_comment c) st.hosts k
              · intro k
                rw [f.2.2.2 k]
                rw [hsv]
                exact servicesShape_updateService c.host (some sname) (sobj.attach_comment c)
                  st.services inner hsvc
                  (by rw [hasKey_eq_true_iff]; exact ⟨sobj, hin⟩) k

theorem attachDowntimesAux_ok_facts (l : List (Int × Downtime)) :
    ∀ (st st' : NagiosState),
    attachDowntimesAux st l = Except.ok st' →
    st'.comments = st.comments ∧ st'.downtimes = st.downtimes
    ∧ (∀ k, hasKey k st'.hosts = hasKey k st.hosts)
    ∧ (∀ k, servicesShape st'.services k = servicesShape st.services k) := by
  induction l with
  | nil =>
      intro st st' h
      rw [attachDowntimesAux] at h
      have he := Except.ok.inj h
      subst he
      exact ⟨rfl, rfl, fun _ => rfl, fun _ => rfl⟩
  | cons q rest ih =>
      intro st st' h
      obtain ⟨i0, d⟩ := q
      rw [attachDowntimesAux] at h
      cases hres : st.host_or_service d.host d.service with
      | none => rw [hres] at h; cases h
      | some e =>
          cases e with
          | h hobj =>
              rw [hres] at h
              have hhost := (host_or_service_h_inv st _ _ hobj hres).2
              have f := ih _ st' h
              refine ⟨f.1, f.2.1, ?_, f.2.2.2⟩
              intro k
              rw [f.2.2.1 k]
              exact shape_attach_host st d.host (hobj.attach_downtime d) hobj hhost k
          | s sobj =>
              rw [hres] at h
              obtain ⟨sname, hobj, inner, hsv, hh, hsvc, hin⟩ :=
                host_or_service_s_inv st _ _ sobj hres
              have f := ih _ st' h
              refine ⟨f.1, f.2.1, ?_, ?_⟩
              · intro k
                rw [f.2.2.1 k]
                exact hasKey_updateHostServiceCopy d.host sobj.service
                  (sobj.attach_downtime d) st.hosts k
              · intro k
                rw [f.2.2.2 k]
                rw [hsv]
                exact servicesShape_updateService d.host (some sname) (sobj.attach_downtime d)
                  st.services inner hsvc
                  (by rw [hasKey_eq_true_iff]; exact ⟨sobj, hin⟩) k

theorem attachCommentsAux_dangling (l : List (Int × Comment)) :
    ∀ (st : NagiosState) (i : Int) (c : Comment),
    (i, c) ∈ l → st.host_or_service c.host c.service = Option.none →
    exceptIsOk (attachCommentsAux st l) = false := by
  induction l with
  | nil =>
      intro st i c hmem
      simp at hmem
  | cons q rest ih =>
      intro st i c hmem hbad
      obtain ⟨i0, c0⟩ := q
      rw [attachCommentsAux]
      rcases List.mem_cons.mp hmem with h1 | h1
      · have hc : c0 = c := congrArg Prod.snd h1.symm
        rw [hc, hbad]
        rfl
      · cases hres : st.host_or_service c0.host c0.service with
        | none => rfl
        | some e =>
            cases e with
            | h hobj =>
                have hhost := (host_or_service_h_inv st _ _ hobj hres).2
                refine ih _ i c h1 ?_
                refine isSome_false_eq_none _ ?_
                have hcong := host_or_service_isSome_congr st
                  { st with hosts := dictInsert c0.host (hobj.attach_comment c0) st.hosts }
                  (shape_attach_host st c0.host (hobj.attach_comment c0) hobj hhost)
                  (fun _ => rfl)
                rw [hcong c.host c.service, hbad]
                rfl
            | s sobj =>
                obtain ⟨sname, hobj, inner, hsv, hh, hsvc, hin⟩ :=
                  host_or_service_s_inv st _ _ sobj hres
                refine ih _ i c h1 ?_
                refine isSome_false_eq_none _ ?_
                have hcong := host_or_service_isSome_congr st
                  { st with
                      services := updateService c0.host c0.service
                        (sobj.attach_comment c0) st.services,
                      hosts := updateHostServiceCopy c0.host sobj.service
                        (sobj.attach_comment c0) st.hosts }
                  (fun k => hasKey_updateHostServiceCopy c0.host sobj.service
                    (sobj.attach_comment c0) st.hosts k)
                  (by
                    show ∀ k, servicesShape (updateService c0.host c0.service
                      (sobj.attach_comment c0) st.services) k = servicesShape st.services k
                    rw [hsv]
                    exact servicesShape_updateService c0.host (some sname)
                      (sobj.attach_comment c0) st.services inner hsvc
                      (by rw [hasKey_eq_true_iff]; exact ⟨sobj, hin⟩))
                rw [hcong c.host c.service, hbad]
                rfl

theorem attachDowntimesAux_dangling (l : List (Int × Downtime)) :
    ∀ (st : NagiosState) (i : Int) (d : Downtime),
    (i, d) ∈ l → st.host_or_service d.host d.service = Option.none →
    exceptIsOk (attachDowntimesAux st l) = false := by
  induction l with
  | nil =>
      intro st i d hmem
      simp at hmem
  | cons q rest ih =>
      intro st i d hmem hbad
      obtain ⟨i0, d0⟩ := q
      rw [attachDowntimesAux]
      rcases List.mem_cons.mp hmem with h1 | h1
      · have hc : d0 = d := congrArg Prod.snd h1.symm
        rw [hc, hbad]
        rfl
      · cases hres : st.host_or_service d0.host d0.service with
        | none => rfl
        | some e =>
            cases e with
            | h hobj =>
                have hhost := (host_or_service_h_inv st _ _ hobj hres).2
                refine ih _ i d h1 ?_
                refine isSome_false_eq_none _ ?_
                have hcong := host_or_service_isSome_congr st
                  { st with hosts := dictInsert d0.host (hobj.attach_downtime d0) st.hosts }
                  (shape_attach_host st d0.host (hobj.attach_downtime d0) hobj hhost)
                  (fun _ => rfl)
                rw [hcong d.host d.service, hbad]
                rfl
            | s sobj =>
                obtain ⟨sname, hobj, inner, hsv, hh, hsvc, hin⟩ :=
                  host_or_service_s_inv st _ _ sobj hres
                refine ih _ i d h1 ?_
                refine isSome_false_eq_none _ ?_
                have hcong := host_or_service_isSome_congr st
                  { st with
                      services := updateService d0.host d0.service
                        (sobj.attach_downtime d0) st.services,
                      hosts := updateHostServiceCopy d0.host sobj.service
                        (sobj.attach_downtime d0) st.hosts }
                  (fun k => hasKey_updateHostServiceCopy d0.host sobj.service
                    (sobj.attach_downtime d0) st.hosts k)
                  (by
                    show ∀ k, servicesShape (updateService d0.host d0.service
                      (sobj.attach_downtime d0) st.services) k = servicesShape st.services k
                    rw [hsv]
                    exact servicesShape_updateService d0.host (some sname)
                      (sobj.attach_downtime d0) st.services inner hsvc
                      (by rw [hasKey_eq_true_iff]; exact ⟨sobj, hin⟩))
                rw [hcong d.host d.service, hbad]
                rfl

/-! ## Claim C2 -/

/-- C2 counterexample: the claim says a comment whose declared host does not
exist is dropped and a usable snapshot is still produced.  On such an input
the build instead fails: `host_or_service` returns `None` and
`None.attach_comment(...)` raises, so no snapshot is produced at all. -/
theorem C2_counterexample :
    next_stanza c2lines = Except.ok c2stanzas
    ∧ processStanzas c2stanzas = Except.ok c2st
    ∧ (∃ p ∈ c2st.comments, c2st.host_or_service p.2.host p.2.service = Option.none)
    ∧ nagiosBuild c2lines = Except.error attachCommentErrMsg := by
  refine ⟨rfl, rfl, ?_, rfl⟩
  decide

/-- C2 (amended): for every parsed input containing a comment or downtime
whose declared target host does not exist (or whose declared service does not
exist under that host), snapshot construction fails fatally (the
`AttributeError` from dereferencing the `None` returned by
`host_or_service`, or an earlier attach error); no snapshot is produced and
no entity is silently dropped. -/
theorem C2_dangling_comment_downtime_fatal (lines : List String) (stanzas : List Stanza)
    (st : NagiosState)
    (hp : next_stanza lines = Except.ok stanzas)
    (hs : processStanzas stanzas = Except.ok st)
    (hbad : (∃ p ∈ st.comments, st.host_or_service p.2.host p.2.service = Option.none)
          ∨ (∃ p ∈ st.downtimes, st.host_or_service p.2.host p.2.service = Option.none)) :
    exceptIsOk (nagiosBuild lines) = false := by
  simp only [nagiosBuild, hp, hs]
  cases has : st.attachServices with
  | error e => simp [exceptIsOk, has]
  | ok st1 =>
      rw [NagiosState.attachServices] at has
      have f1 := attachServicesAux_ok_facts st.services st st1 has
      have hcong1 := host_or_service_isSome_congr st st1 f1.2.2.2.1
        (fun k => by rw [servicesShape, servicesShape, f1.1])
      rcases hbad with ⟨p, hpmem, hpbad⟩ | ⟨p, hpmem, hpbad⟩
      · obtain ⟨i, c⟩ := p
        have hpmem1 : (i, c) ∈ st1.comments := by rw [f1.2.1]; exact hpmem
        have hbad1 : st1.host_or_service c.host c.service = Option.none := by
          refine isSome_false_eq_none _ ?_
          rw [hcong1 c.host c.service, hpbad]
          rfl
        have herr := attachCommentsAux_dangling st1.comments st1 i c hpmem1 hbad1
        cases hac : st1.attachComments with
        | error e => simp [exceptIsOk, hac]
        | ok st2 =>
            rw [NagiosState.attachComments] at hac
            rw [hac] at herr
            simp [exceptIsOk] at herr
      · obtain ⟨i, d⟩ := p
        cases hac : st1.attachComments with
        | error e => simp [exceptIsOk, hac]
        | ok st2 =>
            have hac' := hac
            rw [NagiosState.attachComments] at hac'
            have f2 := attachCommentsAux_ok_facts st1.comments st1 st2 hac'
            have hcong2 := host_or_service_isSome_congr st1 st2 f2.2.2.1 f2.2.2.2
            have hpmem2 : (i, d) ∈ st2.downtimes := by
              rw [f2.2.1, f1.2.2.1]
              exact hpmem
            have hbad2 : st2.host_or_service d.host d.service = Option.none := by
              refine isSome_false_eq_none _ ?_
              rw [hcong2 d.host d.service, hcong1 d.host d.service, hpbad]
              rfl
            have herr := attachDowntimesAux_dangling st2.downtimes st2 i d hpmem2 hbad2
            simp only [hac]
            exact herr

/-- Witness for C2 (amended) on the concrete dangling-comment input. -/
theorem C2_dangling_comment_downtime_fatal_witness :
    exceptIsOk (nagiosBuild c2lines) = false :=
  C2_dangling_comment_downtime_fatal c2lines c2stanzas c2st rfl rfl
    (Or.inl (by decide))

/-! ## Decomposing a successful build -/

theorem nagiosBuild_ok_decompose (lines : List String) (stanzas : List Stanza)
    (st stF : NagiosState)
    (hp : next_stanza lines = Except.ok stanzas)
    (hs : processStanzas stanzas = Except.ok st)
    (hb : nagiosBuild lines = Except.ok stF) :
    ∃ st1 st2, attachServicesAux st st.services = Except.ok st1
      ∧ attachCommentsAux st1 st1.comments = Except.ok st2
      ∧ attachDowntimesAux st2 st2.downtimes = Except.ok stF := by
  simp only [nagiosBuild, hp, hs] at hb
  cases has : st.attachServices with
  | error e => rw [has] at hb; cases hb
  | ok st1 =>
      rw [has] at hb
      dsimp only at hb
      rw [NagiosState.attachServices] at has
      cases hac : st1.attachComments with
      | error e => rw [hac] at hb; cases hb
      | ok st2 =>
          rw [hac] at hb
          dsimp only at hb
          rw [NagiosState.attachComments] at hac
          rw [NagiosState.attachDowntimes] at hb
          exact ⟨st1, st2, has, hac, hb⟩

/-! ## Claim C6 -/

/-- C6: when an input contains two comment (or two downtime) stanzas with the
same integer id, the finished snapshot holds exactly one entity for that id —
the entry built from the last such stanza (later writes win, so its fields
reflect only the later stanza) — and comment/downtime ids are duplicate-free
keys of their dicts. -/
theorem C6_duplicate_id_last_wins (lines : List String) (stanzas : List Stanza)
    (st stF : NagiosState) (i : Int)
    (hp : next_stanza lines = Except.ok stanzas)
    (hs : processStanzas stanzas = Except.ok st)
    (hb : nagiosBuild lines = Except.ok stF) :
    dictGet i stF.comments =
      (match lastCommentStanza i stanzas with
       | some s => some (Comment.build s i)
       | Option.none => Option.none)
    ∧ dictGet i stF.downtimes =
      (match lastDowntimeStanza i stanzas with
       | some s => some (Downtime.build s i)
       | Option.none => Option.none)
    ∧ (stF.comments.map Prod.fst).Nodup
    ∧ (stF.downtimes.map Prod.fst).Nodup := by
  obtain ⟨st1, st2, has, hac, had⟩ :=
    nagiosBuild_ok_decompose lines stanzas st stF hp hs hb
  have f1 := attachServicesAux_ok_facts st.services st st1 has
  have f2 := attachCommentsAux_ok_facts st1.comments st1 st2 hac
  have f3 := attachDowntimesAux_ok_facts st2.downtimes st2 stF had
  have hcomEq : stF.comments = st.comments := by rw [f3.1, f2.1, f1.2.1]
  have hdtEq : stF.downtimes = st.downtimes := by rw [f3.2.1, f2.2.1, f1.2.2.1]
  refine ⟨?_, ?_, ?_, ?_⟩
  · rw [hcomEq, processStanzasAux_comments_last stanzas initState st i hs]
    cases lastCommentStanza i stanzas <;> rfl
  · rw [hdtEq, processStanzasAux_downtimes_last stanzas initState st i hs]
    cases lastDowntimeStanza i stanzas <;> rfl
  · rw [hcomEq]
    exact processStanzasAux_comments_nodup stanzas initState st hs List.nodup_nil
  · rw [hdtEq]
    exact processStanzasAux_downtimes_nodup stanzas initState st hs List.nodup_nil

/-- Witness for C6: two `hostcomment` stanzas with id 3 and two
`hostdowntime` stanzas with id 4; the snapshot holds the second of each, and
ids are duplicate-free. -/
theorem C6_duplicate_id_last_wins_witness :
    dictGet 3 w6stF.comments = some (Comment.build w6cstanza 3)
    ∧ dictGet 4 w6stF.downtimes = some (Downtime.build w6dstanza 4)
    ∧ (w6stF.comments.map Prod.fst).Nodup
    ∧ (w6stF.downtimes.map Prod.fst).Nodup := by
  have h3 := C6_duplicate_id_last_wins w6lines w6stanzas w6st w6stF 3 rfl rfl rfl
  have h4 := C6_duplicate_id_last_wins w6lines w6stanzas w6st w6stF 4 rfl rfl rfl
  exact ⟨h3.1.trans (by rfl), h4.2.1.trans (by rfl), h3.2.2.1, h3.2.2.2⟩

/-! ## Claim C9 -/

/-- C9: a hoststatus (or servicestatus) stanza lacking `host_name` is not
rejected — the dispatch loop stores the entity under the key `None` in the
hosts (or services) dict — and when a hoststatus stanza with no `host_name`
is present, the finished snapshot's serialized host mapping carries the
`None` key. -/
theorem C9_missing_host_name_none_key (lines : List String) (stanzas : List Stanza)
    (st stF : NagiosState)
    (hp : next_stanza lines = Except.ok stanzas)
    (hs : processStanzas stanzas = Except.ok st)
    (hb : nagiosBuild lines = Except.ok stF) :
    (∀ (st0 : NagiosState) (obj : Stanza), typS obj = "hoststatus" →
        processStanza st0 obj = Except.ok
          { st0 with hosts := dictInsert (dictGet "host_name" obj) (Host.build obj) st0.hosts })
    ∧ ((∃ s ∈ stanzas, typS s = "hoststatus" ∧ dictGet "host_name" s = Option.none) →
        hasKey Option.none stF.hosts = true ∧ PyKey.non ∈ stF.for_json.map Prod.fst)
    ∧ ((∃ s ∈ stanzas, typS s = "servicestatus" ∧ dictGet "host_name" s = Option.none) →
        hasKey Option.none stF.services = true) := by
  obtain ⟨st1, st2, has, hac, had⟩ :=
    nagiosBuild_ok_decompose lines stanzas st stF hp hs hb
  have f1 := attachServicesAux_ok_facts st.services st st1 has
  have f2 := attachCommentsAux_ok_facts st1.comments st1 st2 hac
  have f3 := attachDowntimesAux_ok_facts st2.downtimes st2 stF had
  refine ⟨?_, ?_, ?_⟩
  · intro st0 obj ht
    unfold processStanza
    rw [if_pos ht]
  · intro hex
    have hk : hasKey Option.none st.hosts = true :=
      processStanzasAux_hosts_mem stanzas initState st Option.none hs (Or.inr hex)
    have hkF : hasKey Option.none stF.hosts = true := by
      rw [f3.2.2.1, f2.2.2.1, f1.2.2.2.1, hk]
    refine ⟨hkF, ?_⟩
    obtain ⟨hobj, hget⟩ := (hasKey_eq_true_iff Option.none stF.hosts).mp hkF
    have hmem : (Option.none, hobj) ∈ stF.hosts := dictGet_mem hget
    have hmem2 : (PyKey.non, strObj hobj.for_json) ∈ stF.for_json :=
      List.mem_map.mpr ⟨(Option.none, hobj), hmem, rfl⟩
    exact List.mem_map.mpr ⟨(PyKey.non, strObj hobj.for_json), hmem2, rfl⟩
  · intro hex
    have hk : hasKey Option.none st.services = true :=
      processStanzasAux_services_hasKey stanzas initState st Option.none hs (Or.inr hex)
    have h1 : hasKey Option.none st1.services = true := by rw [f1.1, hk]
    have h2 : hasKey Option.none st2.services = true := by
      rw [hasKey_of_servicesShape st1.services st2.services f2.2.2.2 Option.none, h1]
    rw [hasKey_of_servicesShape st2.services stF.services f3.2.2.2 Option.none, h2]

/-- Witness for C9: a hoststatus and a servicestatus stanza both lacking
`host_name`; the build succeeds and both `None` keys are present, and the
serialized host mapping carries the `None` key. -/
theorem C9_missing_host_name_none_key_witness :
    hasKey Option.none w9stF.hosts = true
    ∧ PyKey.non ∈ w9stF.for_json.map Prod.fst
    ∧ hasKey Option.none w9stF.services = true := by
  have h := C9_missing_host_name_none_key w9lines w9stanzas w9st w9stF rfl rfl rfl
  have h2 := h.2.1 (by decide)
  exact ⟨h2.1, h2.2, h.2.2 (by decide)⟩

/-! ## Serialization lemmas -/

theorem dictGet_baseForJson_aux (ks : List String) (attr : String → Json) :
    ∀ (d : List (String × Json)) (k : String),
    dictGet k (ks.foldl (fun d k' => dictInsert k' (attr k') d) d) =
      if k ∈ ks then some (attr k) else dictGet k d := by
  induction ks with
  | nil => intro d k; simp
  | cons a as ih =>
      intro d k
      rw [List.foldl_cons, ih (dictInsert a (attr a) d) k]
      by_cases hk : k ∈ as
      · rw [if_pos hk, if_pos (List.mem_cons_of_mem a hk)]
      · rw [if_neg hk, dictGet_dictInsert]
        by_cases hak : a = k
        · rw [if_pos hak, if_pos (by rw [hak]; exact List.mem_cons_self k as), hak]
        · rw [if_neg hak, if_neg (by
            intro hmem
            rcases List.mem_cons.mp hmem with h1 | h1
            · exact hak h1.symm
            · exact hk h1)]

theorem dictGet_baseForJson (ks : List String) (attr : String → Json) (k : String)
    (h : k ∈ ks) : dictGet k (baseForJson ks attr) = some (attr k) := by
  rw [baseForJson, dictGet_baseForJson_aux ks attr [] k, if_pos h]

theorem keys_baseForJson_aux (ks : List String) (attr : String → Json) :
    ∀ (d : List (String × Json)) (x : String),
    x ∈ (ks.foldl (fun d k' => dictInsert k' (attr k') d) d).map Prod.fst →
    x ∈ ks ∨ x ∈ d.map Prod.fst := by
  induction ks with
  | nil => intro d x hx; exact Or.inr hx
  | cons a as ih =>
      intro d x hx
      rw [List.foldl_cons] at hx
      rcases ih (dictInsert a (attr a) d) x hx with h1 | h1
      · exact Or.inl (List.mem_cons_of_mem a h1)
      · rcases keys_dictInsert x a (attr a) d h1 with h2 | h2
        · exact Or.inl (h2 ▸ List.mem_cons_self x as)
        · exact Or.inr h2

theorem keys_baseForJson (ks : List String) (attr : String → Json) (x : String)
    (hx : x ∈ (baseForJson ks attr).map Prod.fst) : x ∈ ks := by
  rcases keys_baseForJson_aux ks attr [] x hx with h1 | h1
  · exact h1
  · simp at h1

theorem keys_host_for_json (h : Host) (x : String)
    (hx : x ∈ (h.for_json).map Prod.fst) :
    x ∈ h.essential_keys ∨ x = "services" ∨ x = "comments" ∨ x = "downtimes" := by
  rw [Host.for_json] at hx
  rcases keys_dictInsert x "downtimes" _ _ hx with h1 | h1
  · exact Or.inr (Or.inr (Or.inr h1))
  rcases keys_dictInsert x "comments" _ _ h1 with h2 | h2
  · exact Or.inr (Or.inr (Or.inl h2))
  rcases keys_dictInsert x "services" _ _ h2 with h3 | h3
  · exact Or.inr (Or.inl h3)
  exact Or.inl (keys_baseForJson h.essential_keys h.attr x h3)

theorem hostConfigStep_essential (conf : List (String × String)) :
    ∀ (items : List String) (h : Host) (x : String),
    x ∈ (items.foldl (hostConfigStep conf) h).essential_keys →
    x ∈ h.essential_keys ∨ x ∈ items := by
  intro items
  induction items with
  | nil => intro h x hx; exact Or.inl hx
  | cons a as ih =>
      intro h x hx
      rw [List.foldl_cons] at hx
      rcases ih (hostConfigStep conf h a) x hx with h1 | h1
      · rw [hostConfigStep] at h1
        cases hg : dictGet a conf with
        | none =>
            rw [hg] at h1
            dsimp only at h1
            exact Or.inl h1
        | some v =>
            rw [hg] at h1
            dsimp only at h1
            by_cases hv : v = ""
            · rw [if_pos hv] at h1
              exact Or.inl h1
            · rw [if_neg hv] at h1
              rcases List.mem_append.mp h1 with h2 | h2
              · exact Or.inl h2
              · simp at h2
                exact Or.inr (h2 ▸ List.mem_cons_self x as)
      · exact Or.inr (List.mem_cons_of_mem a h1)

theorem serviceConfigStep_essential (conf : List (String × String)) :
    ∀ (items : List String) (s : Service) (x : String),
    x ∈ (items.foldl (serviceConfigStep conf) s).essential_keys →
    x ∈ s.essential_keys ∨ x ∈ items := by
  intro items
  induction items with
  | nil => intro s x hx; exact Or.inl hx
  | cons a as ih =>
      intro s x hx
      rw [List.foldl_cons] at hx
      rcases ih (serviceConfigStep conf s a) x hx with h1 | h1
      · rw [serviceConfigStep] at h1
        cases hg : dictGet a conf with
        | none =>
            rw [hg] at h1
            dsimp only at h1
            exact Or.inl h1
        | some v =>
            rw [hg] at h1
            dsimp only at h1
            by_cases hv : v = ""
            · rw [if_pos hv] at h1
              exact Or.inl h1
            · rw [if_neg hv] at h1
              rcases List.mem_append.mp h1 with h2 | h2
              · exact Or.inl h2
              · simp at h2
                exact Or.inr (h2 ▸ List.mem_cons_self x as)
      · exact Or.inr (List.mem_cons_of_mem a h1)

theorem hostReach_essential (h : Host) (hr : hostReach h) :
    ∀ x ∈ h.essential_keys, x ∈ hostServiceEssentialKeys ∨ x ∈ hostConfigItems := by
  induction hr with
  | build obj => intro x hx; exact Or.inl hx
  | config h0 conf _ ih =>
      intro x hx
      rcases hostConfigStep_essential conf hostConfigItems h0 x hx with h1 | h1
      · exact ih x h1
      · exact Or.inr h1
  | svc h0 s _ ih => exact ih
  | cmt h0 c _ ih => exact ih
  | dt h0 d _ ih => exact ih

theorem serviceReach_essential (s : Service) (hr : serviceReach s) :
    ∀ x ∈ s.essential_keys, x ∈ hostServiceEssentialKeys ∨ x ∈ serviceConfigItems := by
  induction hr with
  | build obj => intro x hx; exact Or.inl hx
  | config s0 conf _ ih =>
      intro x hx
      rcases serviceConfigStep_essential conf serviceConfigItems s0 x hx with h1 | h1
      · exact ih x h1
      · exact Or.inr h1
  | cmt s0 c _ ih => exact ih
  | dt s0 d _ ih => exact ih

/-! ## Claim C7 -/

/-- C7: the reduced JSON view of any Host obtainable from a raw stanza (with
any config promotions and attachments applied) only ever carries keys from
the fixed essential-field allow-list, the config-promoted items, and the
nested `services`/`comments`/`downtimes` views; raw stanza keys outside the
allow-list never appear. -/
theorem C7_host_json_allowlist (h : Host) (hr : hostReach h) :
    ∀ x ∈ (h.for_json).map Prod.fst,
      x ∈ hostServiceEssentialKeys ++ hostConfigItems
        ++ ["services", "comments", "downtimes"] := by
  intro x hx
  rcases keys_host_for_json h x hx with h1 | h1 | h1 | h1
  · rcases hostReach_essential h hr x h1 with h2 | h2
    · exact List.mem_append.mpr (Or.inl (List.mem_append.mpr (Or.inl h2)))
    · exact List.mem_append.mpr (Or.inl (List.mem_append.mpr (Or.inr h2)))
  · refine List.mem_append.mpr (Or.inr ?_)
    rw [h1]
    decide
  · refine List.mem_append.mpr (Or.inr ?_)
    rw [h1]
    decide
  · refine List.mem_append.mpr (Or.inr ?_)
    rw [h1]
    decide

/-- Witness for C7: a host built from a stanza carrying the stray key
`secret_internal`, with a config record applied; every serialized key is in
the allow-list (in particular `secret_internal` is not serialized). -/
theorem C7_host_json_allowlist_witness :
    (((Host.build w7obj).attach_config w7conf).for_json.map Prod.fst).all
      (fun x => decide (x ∈ hostServiceEssentialKeys ++ hostConfigItems
        ++ ["services", "comments", "downtimes"])) = true := by
  have h := C7_host_json_allowlist ((Host.build w7obj).attach_config w7conf)
    (hostReach.config (Host.build w7obj) w7conf (hostReach.build w7obj))
  rw [List.all_eq_true]
  intro x hx
  exact decide_eq_true (h x hx)

/-! ## Claim C10 -/

/-- C10: for every entity kind, the reduced JSON view contains every key of
the entity's essential-field list, and an essential field absent from the
source stanza (and not supplied by config) is emitted as the value `None`
rather than omitted.  For comments and downtimes the id field is always
present in the source stanza of a built entity, so the absent-field clause
concerns the other essential keys. -/
theorem C10_essential_keys_always_emitted
    (h : Host) (sv : Service) (cobj dobj : Stanza) (ci di : Int) (k : String)
    (hrh : hostReach h) (hrs : serviceReach sv) :
    (k ∈ h.essential_keys → dictGet k h.for_json = some (h.attr k))
    ∧ (k ∈ h.essential_keys → dictGet k h.fields = Option.none →
        dictGet k h.configAttrs = Option.none → dictGet k h.for_json = some Json.nul)
    ∧ (k ∈ sv.essential_keys → dictGet k sv.for_json = some (sv.attr k))
    ∧ (k ∈ sv.essential_keys → dictGet k sv.fields = Option.none →
        dictGet k sv.configAttrs = Option.none → dictGet k sv.for_json = some Json.nul)
    ∧ (k ∈ commentEssentialKeys →
        dictGet k (Comment.build cobj ci).for_json = some ((Comment.build cobj ci).attr k))
    ∧ (k ∈ commentEssentialKeys → dictGet k cobj = Option.none →
        dictGet "comment_id" cobj ≠ Option.none →
        dictGet k (Comment.build cobj ci).for_json = some Json.nul)
    ∧ (k ∈ downtimeEssentialKeys →
        dictGet k (Downtime.build dobj di).for_json = some ((Downtime.build dobj di).attr k))
    ∧ (k ∈ downtimeEssentialKeys → dictGet k dobj = Option.none →
        dictGet "downtime_id" dobj ≠ Option.none →
        dictGet k (Downtime.build dobj di).for_json = some Json.nul) := by
  have hostKeyNe : ∀ x : String, (x ∈ hostServiceEssentialKeys ∨ x ∈ hostConfigItems) →
      ¬("downtimes" = x) ∧ ¬("comments" = x) ∧ ¬("services" = x) := by
    intro x hx
    refine ⟨?_, ?_, ?_⟩ <;> intro he <;> subst he <;>
      rcases hx with hx | hx <;> exact absurd hx (by decide)
  have svcKeyNe : ∀ x : String, (x ∈ hostServiceEssentialKeys ∨ x ∈ serviceConfigItems) →
      ¬("downtimes" = x) ∧ ¬("comments" = x) := by
    intro x hx
    refine ⟨?_, ?_⟩ <;> intro he <;> subst he <;>
      rcases hx with hx | hx <;> exact absurd hx (by decide)
  have hpres : k ∈ h.essential_keys → dictGet k h.for_json = some (h.attr k) := by
    intro hk
    have hne := hostKeyNe k (hostReach_essential h hrh k hk)
    rw [Host.for_json, dictGet_dictInsert, if_neg hne.1, dictGet_dictInsert,
        if_neg hne.2.1, dictGet_dictInsert, if_neg hne.2.2,
        dictGet_baseForJson h.essential_keys h.attr k hk]
  have spres : k ∈ sv.essential_keys → dictGet k sv.for_json = some (sv.attr k) := by
    intro hk
    have hne := svcKeyNe k (serviceReach_essential sv hrs k hk)
    rw [Service.for_json, dictGet_dictInsert, if_neg hne.1, dictGet_dictInsert,
        if_neg hne.2, dictGet_baseForJson sv.essential_keys sv.attr k hk]
  have cpres : k ∈ commentEssentialKeys →
      dictGet k (Comment.build cobj ci).for_json = some ((Comment.build cobj ci).attr k) := by
    intro hk
    rw [Comment.for_json, dictGet_baseForJson commentEssentialKeys _ k hk]
  have dpres : k ∈ downtimeEssentialKeys →
      dictGet k (Downtime.build dobj di).for_json = some ((Downtime.build dobj di).attr k) := by
    intro hk
    rw [Downtime.for_json, dictGet_baseForJson downtimeEssentialKeys _ k hk]
  refine ⟨hpres, ?_, spres, ?_, cpres, ?_, dpres, ?_⟩
  · intro hk h1 h2
    rw [hpres hk]
    simp [Host.attr, h1, h2]
  · intro hk h1 h2
    rw [spres hk]
    simp [Service.attr, h1, h2]
  · intro hk h1 h2
    rw [cpres hk]
    have hkne : ¬(k = "comment_id") := by
      intro he
      rw [he] at h1
      exact h2 h1
    simp [Comment.attr, Comment.build, hkne, h1]
  · intro hk h1 h2
    rw [dpres hk]
    have hkne : ¬(k = "downtime_id") := by
      intro he
      rw [he] at h1
      exact h2 h1
    simp [Downtime.attr, Downtime.build, hkne, h1]

/-- Witness for C10 on concrete entities: fields missing from the source
stanzas serialize as `None`, and the coerced id field is present as an
integer. -/
theorem C10_essential_keys_always_emitted_witness :
    dictGet "current_state" (Host.build w10hobj).for_json = some Json.nul
    ∧ dictGet "plugin_output" (Service.build w10sobj).for_json = some Json.nul
    ∧ dictGet "author" (Comment.build w10cobj 5).for_json = some Json.nul
    ∧ dictGet "comment_id" (Comment.build w10cobj 5).for_json = some (Json.int 5)
    ∧ dictGet "author" (Downtime.build w10dobj 7).for_json = some Json.nul := by
  refine ⟨?_, ?_, ?_, ?_, ?_⟩
  · exact (C10_essential_keys_always_emitted (Host.build w10hobj) (Service.build w10sobj)
      w10cobj w10dobj 5 7 "current_state" (hostReach.build w10hobj)
      (serviceReach.build w10sobj)).2.1 (by decide) rfl rfl
  · exact (C10_essential_keys_always_emitted (Host.build w10hobj) (Service.build w10sobj)
      w10cobj w10dobj 5 7 "plugin_output" (hostReach.build w10hobj)
      (serviceReach.build w10sobj)).2.2.2.1 (by decide) rfl rfl
  · exact (C10_essential_keys_always_emitted (Host.build w10hobj) (Service.build w10sobj)
      w10cobj w10dobj 5 7 "author" (hostReach.build w10hobj)
      (serviceReach.build w10sobj)).2.2.2.2.2.1 (by decide) rfl (by decide)
  · exact ((C10_essential_keys_always_emitted (Host.build w10hobj) (Service.build w10sobj)
      w10cobj w10dobj 5 7 "comment_id" (hostReach.build w10hobj)
      (serviceReach.build w10sobj)).2.2.2.2.1 (by decide)).trans (by rfl)
  · exact (C10_essential_keys_always_emitted (Host.build w10hobj) (Service.build w10sobj)
      w10cobj w10dobj 5 7 "author" (hostReach.build w10hobj)
      (serviceReach.build w10sobj)).2.2.2.2.2.2.2 (by decide) rfl (by decide)

/-! ## Attachment tracking for C5 -/

theorem commentIdPreserved_refl (i : Int) (st : NagiosState) : commentIdPreserved i st st :=
  ⟨fun _ => rfl,
   fun _ hobj hg => ⟨hobj, hg, rfl⟩,
   fun _ hobj1 hg => ⟨hobj1, hg, rfl⟩,
   fun _ _ inner svc hg hin => ⟨inner, svc, hg, hin, rfl⟩⟩

theorem commentIdPreserved_trans (i : Int) (st st1 st2 : NagiosState)
    (h1 : commentIdPreserved i st st1) (h2 : commentIdPreserved i st1 st2) :
    commentIdPreserved i st st2 := by
  refine ⟨fun k => (h2.1 k).trans (h1.1 k), ?_, ?_, ?_⟩
  · intro k hobj hg
    obtain ⟨ha, hga, hca⟩ := h1.2.1 k hobj hg
    obtain ⟨hb, hgb, hcb⟩ := h2.2.1 k ha hga
    exact ⟨hb, hgb, hcb.trans hca⟩
  · intro k hobj2 hg
    obtain ⟨ha, hga, hca⟩ := h2.2.2.1 k hobj2 hg
    obtain ⟨hb, hgb, hcb⟩ := h1.2.2.1 k ha hga
    exact ⟨hb, hgb, hca.trans hcb⟩
  · intro k sk inner svc hg hin
    obtain ⟨ia, sa, hga, hina, hca⟩ := h1.2.2.2 k sk inner svc hg hin
    obtain ⟨ib, sb, hgb, hinb, hcb⟩ := h2.2.2.2 k sk ia sa hga hina
    exact ⟨ib, sb, hgb, hinb, hcb.trans hca⟩

theorem downtimeIdPreserved_refl (i : Int) (st : NagiosState) : downtimeIdPreserved i st st :=
  ⟨fun _ => rfl,
   fun _ hobj hg => ⟨hobj, hg, rfl⟩,
   fun _ hobj1 hg => ⟨hobj1, hg, rfl⟩,
   fun _ _ inner svc hg hin => ⟨inner, svc, hg, hin, rfl⟩⟩

theorem downtimeIdPreserved_trans (i : Int) (st st1 st2 : NagiosState)
    (h1 : downtimeIdPreserved i st st1) (h2 : downtimeIdPreserved i st1 st2) :
    downtimeIdPreserved i st st2 := by
  refine ⟨fun k => (h2.1 k).trans (h1.1 k), ?_, ?_, ?_⟩
  · intro k hobj hg
    obtain ⟨ha, hga, hca⟩ := h1.2.1 k hobj hg
    obtain ⟨hb, hgb, hcb⟩ := h2.2.1 k ha hga
    exact ⟨hb, hgb, hcb.trans hca⟩
  · intro k hobj2 hg
    obtain ⟨ha, hga, hca⟩ := h2.2.2.1 k hobj2 hg
    obtain ⟨hb, hgb, hcb⟩ := h1.2.2.1 k ha hga
    exact ⟨hb, hgb, hca.trans hcb⟩
  · intro k sk inner svc hg hin
    obtain ⟨ia, sa, hga, hina, hca⟩ := h1.2.2.2 k sk inner svc hg hin
    obtain ⟨ib, sb, hgb, hinb, hcb⟩ := h2.2.2.2 k sk ia sa hga hina
    exact ⟨ib, sb, hgb, hinb, hcb.trans hca⟩

theorem commentAttachedToService_mono (st st1 : NagiosState) (c : Comment) (sname : String)
    (hpres : commentIdPreserved c.comment_id st st1)
    (h : commentAttachedToService st c sname) : commentAttachedToService st1 c sname := by
  obtain ⟨hh, inner, svc, hg, hin, hc⟩ := h
  obtain ⟨inner1, svc1, hg1, hin1, hc1⟩ := hpres.2.2.2 c.host (some sname) inner svc hg hin
  exact ⟨by rw [hpres.1 c.host, hh], inner1, svc1, hg1, hin1, by rw [hc1, hc]⟩

theorem commentAttachedToHost_mono (st st1 : NagiosState) (c : Comment)
    (hpres : commentIdPreserved c.comment_id st st1)
    (h : commentAttachedToHost st c) : commentAttachedToHost st1 c := by
  obtain ⟨hobj, hg, hc⟩ := h
  obtain ⟨hobj1, hg1, hc1⟩ := hpres.2.1 c.host hobj hg
  exact ⟨hobj1, hg1, by rw [hc1, hc]⟩

theorem commentNotOnHosts_mono (st st1 : NagiosState) (i : Int)
    (hpres : commentIdPreserved i st st1)
    (h : commentNotOnHosts st i) : commentNotOnHosts st1 i := by
  intro k hobj1 hg1
  obtain ⟨hobj, hg, hc⟩ := hpres.2.2.1 k hobj1 hg1
  rw [hc]
  exact h k hobj hg

theorem downtimeAttachedToService_mono (st st1 : NagiosState) (d : Downtime) (sname : String)
    (hpres : downtimeIdPreserved d.downtime_id st st1)
    (h : downtimeAttachedToService st d sname) : downtimeAttachedToService st1 d sname := by
  obtain ⟨hh, inner, svc, hg, hin, hc⟩ := h
  obtain ⟨inner1, svc1, hg1, hin1, hc1⟩ := hpres.2.2.2 d.host (some sname) inner svc hg hin
  exact ⟨by rw [hpres.1 d.host, hh], inner1, svc1, hg1, hin1, by rw [hc1, hc]⟩

theorem downtimeAttachedToHost_mono (st st1 : NagiosState) (d : Downtime)
    (hpres : downtimeIdPreserved d.downtime_id st st1)
    (h : downtimeAttachedToHost st d) : downtimeAttachedToHost st1 d := by
  obtain ⟨hobj, hg, hc⟩ := h
  obtain ⟨hobj1, hg1, hc1⟩ := hpres.2.1 d.host hobj hg
  exact ⟨hobj1, hg1, by rw [hc1, hc]⟩

theorem downtimeNotOnHosts_mono (st st1 : NagiosState) (i : Int)
    (hpres : downtimeIdPreserved i st st1)
    (h : downtimeNotOnHosts st i) : downtimeNotOnHosts st1 i := by
  intro k hobj1 hg1
  obtain ⟨hobj, hg, hc⟩ := hpres.2.2.1 k hobj1 hg1
  rw [hc]
  exact h k hobj hg

theorem commentIdPreserved_attach_host (st : NagiosState) (c0 : Comment) (hobj : Host) (i : Int)
    (hhost : dictGet c0.host st.hosts = some hobj)
    (hne : c0.comment_id ≠ i) :
    commentIdPreserved i st
      { st with hosts := dictInsert c0.host (hobj.attach_comment c0) st.hosts } := by
  refine ⟨shape_attach_host st c0.host _ hobj hhost, ?_, ?_, ?_⟩
  · intro k hobjX hg
    show ∃ hobj1, dictGet k (dictInsert c0.host (hobj.attach_comment c0) st.hosts) = some hobj1
      ∧ dictGet i hobj1.comments = dictGet i hobjX.comments
    rw [dictGet_dictInsert]
    by_cases hk : c0.host = k
    · rw [if_pos hk]
      have hx : hobjX = hobj := by
        rw [hk] at hhost
        rw [hhost] at hg
        exact (Option.some.inj hg).symm
      refine ⟨hobj.attach_comment c0, rfl, ?_⟩
      show dictGet i (dictInsert c0.comment_id c0 hobj.comments) = dictGet i hobjX.comments
      rw [dictGet_dictInsert, if_neg hne, hx]
    · rw [if_neg hk]
      exact ⟨hobjX, hg, rfl⟩
  · intro k hobj1 hg
    have hg' : dictGet k (dictInsert c0.host (hobj.attach_comment c0) st.hosts) = some hobj1 := hg
    rw [dictGet_dictInsert] at hg'
    by_cases hk : c0.host = k
    · rw [if_pos hk] at hg'
      have h1 : hobj1 = hobj.attach_comment c0 := (Option.some.inj hg').symm
      refine ⟨hobj, by rw [← hk]; exact hhost, ?_⟩
      rw [h1]
      show dictGet i (dictInsert c0.comment_id c0 hobj.comments) = dictGet i hobj.comments
      rw [dictGet_dictInsert, if_neg hne]
    · rw [if_neg hk] at hg'
      exact ⟨hobj1, hg', rfl⟩
  · intro k sk inner svc hg hin
    exact ⟨inner, svc, hg, hin, rfl⟩

theorem commentIdPreserved_attach_svc (st : NagiosState) (c0 : Comment) (sobj : Service)
    (sname0 : String) (inner0 : List (Option String × Service)) (i : Int)
    (hse : c0.service = some sname0)
    (hsvc : dictGet c0.host st.services = some inner0)
    (hin : dictGet (some sname0) inner0 = some sobj)
    (hne : c0.comment_id ≠ i) :
    commentIdPreserved i st
      { st with
          services := updateService c0.host c0.service (sobj.attach_comment c0) st.services,
          hosts := updateHostServiceCopy c0.host sobj.service (sobj.attach_comment c0) st.hosts } := by
  refine ⟨?_, ?_, ?_, ?_⟩
  · intro k
    exact hasKey_updateHostServiceCopy c0.host sobj.service (sobj.attach_comment c0) st.hosts k
  · intro k hobjX hg
    show ∃ hobj1, dictGet k (updateHostServiceCopy c0.host sobj.service
        (sobj.attach_comment c0) st.hosts) = some hobj1
      ∧ dictGet i hobj1.comments = dictGet i hobjX.comments
    rw [dictGet_updateHostServiceCopy]
    by_cases hk : c0.host = k
    · rw [if_pos hk, hg]
      exact ⟨_, rfl, rfl⟩
    · rw [if_neg hk]
      exact ⟨hobjX, hg, rfl⟩
  · intro k hobj1 hg
    have hg' : dictGet k (updateHostServiceCopy c0.host sobj.service
        (sobj.attach_comment c0) st.hosts) = some hobj1 := hg
    rw [dictGet_updateHostServiceCopy] at hg'
    by_cases hk : c0.host = k
    · rw [if_pos hk] at hg'
      cases hgx : dictGet k st.hosts with
      | none => rw [hgx] at hg'; cases hg'
      | some hobjX =>
          rw [hgx] at hg'
          have h1 : hobj1 = { hobjX with
              services := dictInsert sobj.service (sobj.attach_comment c0) hobjX.services } :=
            (Option.some.inj hg').symm
          exact ⟨hobjX, rfl, by rw [h1]⟩
    · rw [if_neg hk] at hg'
      exact ⟨hobj1, hg', rfl⟩
  · intro k sk inner svc hg hin2
    show ∃ inner1 svc1, dictGet k (updateService c0.host c0.service
        (sobj.attach_comment c0) st.services) = some inner1
      ∧ dictGet sk inner1 = some svc1
      ∧ dictGet i svc1.comments = dictGet i svc.comments
    rw [dictGet_updateService]
    by_cases hk : c0.host = k
    · rw [if_pos hk, hg]
      have hi0 : inner0 = inner := by
        rw [hk] at hsvc
        rw [hsvc] at hg
        exact Option.some.inj hg
      by_cases hsk : c0.service = sk
      · have hsobj : sobj = svc := by
          rw [hse] at hsk
          rw [hi0, hsk] at hin
          rw [hin2] at hin
          exact (Option.some.inj hin).symm
        refine ⟨dictInsert c0.service (sobj.attach_comment c0) inner,
          sobj.attach_comment c0, rfl, ?_, ?_⟩
        · rw [dictGet_dictInsert, if_pos hsk]
        · show dictGet i (dictInsert c0.comment_id c0 sobj.comments) = dictGet i svc.comments
          rw [dictGet_dictInsert, if_neg hne, hsobj]
      · refine ⟨dictInsert c0.service (sobj.attach_comment c0) inner, svc, rfl, ?_, rfl⟩
        rw [dictGet_dictInsert, if_neg hsk]
        exact hin2
    · rw [if_neg hk]
      exact ⟨inner, svc, hg, hin2, rfl⟩

theorem commentIdPreserved_attach_host_dt (st : NagiosState) (d0 : Downtime) (hobj : Host)
    (i : Int) (hhost : dictGet d0.host st.hosts = some hobj) :
    commentIdPreserved i st
      { st with hosts := dictInsert d0.host (hobj.attach_downtime d0) st.hosts } := by
  refine ⟨shape_attach_host st d0.host _ hobj hhost, ?_, ?_, ?_⟩
  · intro k hobjX hg
    show ∃ hobj1, dictGet k (dictInsert d0.host (hobj.attach_downtime d0) st.hosts) = some hobj1
      ∧ dictGet i hobj1.comments = dictGet i hobjX.comments
    rw [dictGet_dictInsert]
    by_cases hk : d0.host = k
    · rw [if_pos hk]
      have hx : hobjX = hobj := by
        rw [hk] at hhost
        rw [hhost] at hg
        exact (Option.some.inj hg).symm
      refine ⟨hobj.attach_downtime d0, rfl, ?_⟩
      show dictGet i hobj.comments = dictGet i hobjX.comments
      rw [hx]
    · rw [if_neg hk]
      exact ⟨hobjX, hg, rfl⟩
  · intro k hobj1 hg
    have hg' : dictGet k (dictInsert d0.host (hobj.attach_downtime d0) st.hosts) = some hobj1 := hg
    rw [dictGet_dictInsert] at hg'
    by_cases hk : d0.host = k
    · rw [if_pos hk] at hg'
      have h1 : hobj1 = hobj.attach_downtime d0 := (Option.some.inj hg').symm
      refine ⟨hobj, by rw [← hk]; exact hhost, ?_⟩
      rw [h1]
      rfl
    · rw [if_neg hk] at hg'
      exact ⟨hobj1, hg', rfl⟩
  · intro k sk inner svc hg hin
    exact ⟨inner, svc, hg, hin, rfl⟩

theorem commentIdPreserved_attach_svc_dt (st : NagiosState) (d0 : Downtime) (sobj : Service)
    (sname0 : String) (inner0 : List (Option String × Service)) (i : Int)
    (hse : d0.service = some sname0)
    (hsvc : dictGet d0.host st.services = some inner0)
    (hin : dictGet (some sname0) inner0 = some sobj) :
    commentIdPreserved i st
      { st with
          services := updateService d0.host d0.service (sobj.attach_downtime d0) st.services,
          hosts := updateHostServiceCopy d0.host sobj.service (sobj.attach_downtime d0) st.hosts } := by
  refine ⟨?_, ?_, ?_, ?_⟩
  · intro k
    exact hasKey_updateHostServiceCopy d0.host sobj.service (sobj.attach_downtime d0) st.hosts k
  · intro k hobjX hg
    show ∃ hobj1, dictGet k (updateHostServiceCopy d0.host sobj.service
        (sobj.attach_downtime d0) st.hosts) = some hobj1
      ∧ dictGet i hobj1.comments = dictGet i hobjX.comments
    rw [dictGet_updateHostServiceCopy]
    by_cases hk : d0.host = k
    · rw [if_pos hk, hg]
      exact ⟨_, rfl, rfl⟩
    · rw [if_neg hk]
      exact ⟨hobjX, hg, rfl⟩
  · intro k hobj1 hg
    have hg' : dictGet k (updateHostServiceCopy d0.host sobj.service
        (sobj.attach_downtime d0) st.hosts) = some hobj1 := hg
    rw [dictGet_updateHostServiceCopy] at hg'
    by_cases hk : d0.host = k
    · rw [if_pos hk] at hg'
      cases hgx : dictGet k st.hosts with
      | none => rw [hgx] at hg'; cases hg'
      | some hobjX =>
          rw [hgx] at hg'
          have h1 : hobj1 = { hobjX with
              services := dictInsert sobj.service (sobj.attach_downtime d0) hobjX.services } :=
            (Option.some.inj hg').symm
          exact ⟨hobjX, rfl, by rw [h1]⟩
    · rw [if_neg hk] at hg'
      exact ⟨hobj1, hg', rfl⟩
  · intro k sk inner svc hg hin2
    show ∃ inner1 svc1, dictGet k (updateService d0.host d0.service
        (sobj.attach_downtime d0) st.services) = some inner1
      ∧ dictGet sk inner1 = some svc1
      ∧ dictGet i svc1.comments = dictGet i svc.comments
    rw [dictGet_updateService]
    by_cases hk : d0.host = k
    · rw [if_pos hk, hg]
      have hi0 : inner0 = inner := by
        rw [hk] at hsvc
        rw [hsvc] at hg
        exact Option.some.inj hg
      by_cases hsk : d0.service = sk
      · have hsobj : sobj = svc := by
          rw [hse] at hsk
          rw [hi0, hsk] at hin
          rw [hin2] at hin
          exact (Option.some.inj hin).symm
        refine ⟨dictInsert d0.service (sobj.attach_downtime d0) inner,
          sobj.attach_downtime d0, rfl, ?_, ?_⟩
        · rw [dictGet_dictInsert, if_pos hsk]
        · show dictGet i sobj.comments = dictGet i svc.comments
          rw [hsobj]
      · refine ⟨dictInsert d0.service (sobj.attach_downtime d0) inner, svc, rfl, ?_, rfl⟩
        rw [dictGet_dictInsert, if_neg hsk]
        exact hin2
    · rw [if_neg hk]
      exact ⟨inner, svc, hg, hin2, rfl⟩

theorem downtimeIdPreserved_attach_host_d (st : NagiosState) (d0 : Downtime) (hobj : Host)
    (i : Int) (hhost : dictGet d0.host st.hosts = some hobj)
    (hne : d0.downtime_id ≠ i) :
    downtimeIdPreserved i st
      { st with hosts := dictInsert d0.host (hobj.attach_downtime d0) st.hosts } := by
  refine ⟨shape_attach_host st d0.host _ hobj hhost, ?_, ?_, ?_⟩
  · intro k hobjX hg
    show ∃ hobj1, dictGet k (dictInsert d0.host (hobj.attach_downtime d0) st.hosts) = some hobj1
      ∧ dictGet i hobj1.downtimes = dictGet i hobjX.downtimes
    rw [dictGet_dictInsert]
    by_cases hk : d0.host = k
    · rw [if_pos hk]
      have hx : hobjX = hobj := by
        rw [hk] at hhost
        rw [hhost] at hg
        exact (Option.some.inj hg).symm
      refine ⟨hobj.attach_downtime d0, rfl, ?_⟩
      show dictGet i (dictInsert d0.downtime_id d0 hobj.downtimes) = dictGet i hobjX.downtimes
      rw [dictGet_dictInsert, if_neg hne, hx]
    · rw [if_neg hk]
      exact ⟨hobjX, hg, rfl⟩
  · intro k hobj1 hg
    have hg' : dictGet k (dictInsert d0.host (hobj.attach_downtime d0) st.hosts) = some hobj1 := hg
    rw [dictGet_dictInsert] at hg'
    by_cases hk : d0.host = k
    · rw [if_pos hk] at hg'
      have h1 : hobj1 = hobj.attach_downtime d0 := (Option.some.inj hg').symm
      refine ⟨hobj, by rw [← hk]; exact hhost, ?_⟩
      rw [h1]
      show dictGet i (dictInsert d0.downtime_id d0 hobj.downtimes) = dictGet i hobj.downtimes
      rw [dictGet_dictInsert, if_neg hne]
    · rw [if_neg hk] at hg'
      exact ⟨hobj1, hg', rfl⟩
  · intro k sk inner svc hg hin
    exact ⟨inner, svc, hg, hin, rfl⟩

theorem downtimeIdPreserved_attach_svc_d (st : NagiosState) (d0 : Downtime) (sobj : Service)
    (sname0 : String) (inner0 : List (Option String × Service)) (i : Int)
    (hse : d0.service = some sname0)
    (hsvc : dictGet d0.host st.services = some inner0)
    (hin : dictGet (some sname0) inner0 = some sobj)
    (hne : d0.downtime_id ≠ i) :
    downtimeIdPreserved i st
      { st with
          services := updateService d0.host d0.service (sobj.attach_downtime d0) st.services,
          hosts := updateHostServiceCopy d0.host sobj.service (sobj.attach_downtime d0) st.hosts } := by
  refine ⟨?_, ?_, ?_, ?_⟩
  · intro k
    exact hasKey_updateHostServiceCopy d0.host sobj.service (sobj.attach_downtime d0) st.hosts k
  · intro k hobjX hg
    show ∃ hobj1, dictGet k (updateHostServiceCopy d0.host sobj.service
        (sobj.attach_downtime d0) st.hosts) = some hobj1
      ∧ dictGet i hobj1.downtimes = dictGet i hobjX.downtimes
    rw [dictGet_updateHostServiceCopy]
    by_cases hk : d0.host = k
    · rw [if_pos hk, hg]
      exact ⟨_, rfl, rfl⟩
    · rw [if_neg hk]
      exact ⟨hobjX, hg, rfl⟩
  · intro k hobj1 hg
    have hg' : dictGet k (updateHostServiceCopy d0.host sobj.service
        (sobj.attach_downtime d0) st.hosts) = some hobj1 := hg
    rw [dictGet_updateHostServiceCopy] at hg'
    by_cases hk : d0.host = k
    · rw [if_pos hk] at hg'
      cases hgx : dictGet k st.hosts with
      | none => rw [hgx] at hg'; cases hg'
      | some hobjX =>
          rw [hgx] at hg'
          have h1 : hobj1 = { hobjX with
              services := dictInsert sobj.service (sobj.attach_downtime d0) hobjX.services } :=
            (Option.some.inj hg').symm
          exact ⟨hobjX, rfl, by rw [h1]⟩
    · rw [if_neg hk] at hg'
      exact ⟨hobj1, hg', rfl⟩
  · intro k sk inner svc hg hin2
    show ∃ inner1 svc1, dictGet k (updateService d0.host d0.service
        (sobj.attach_downtime d0) st.services) = some inner1
      ∧ dictGet sk inner1 = some svc1
      ∧ dictGet i svc1.downtimes = dictGet i svc.downtimes
    rw [dictGet_updateService]
    by_cases hk : d0.host = k
    · rw [if_pos hk, hg]
      have hi0 : inner0 = inner := by
        rw [hk] at hsvc
        rw [hsvc] at hg
        exact Option.some.inj hg
      by_cases hsk : d0.service = sk
      · have hsobj : sobj = svc := by
          rw [hse] at hsk
          rw [hi0, hsk] at hin
          rw [hin2] at hin
          exact (Option.some.inj hin).symm
        refine ⟨dictInsert d0.service (sobj.attach_downtime d0) inner,
          sobj.attach_downtime d0, rfl, ?_, ?_⟩
        · rw [dictGet_dictInsert, if_pos hsk]
        · show dictGet i (dictInsert d0.downtime_id d0 sobj.downtimes)
            = dictGet i svc.downtimes
          rw [dictGet_dictInsert, if_neg hne, hsobj]
      · refine ⟨dictInsert d0.service (sobj.attach_downtime d0) inner, svc, rfl, ?_, rfl⟩
        rw [dictGet_dictInsert, if_neg hsk]
        exact hin2
    · rw [if_neg hk]
      exact ⟨inner, svc, hg, hin2, rfl⟩

theorem attachCommentsAux_idPreserved (l : List (Int × Comment)) :
    ∀ (st st' : NagiosState) (i : Int),
    attachCommentsAux st l = Except.ok st' →
    (∀ p ∈ l, p.2.comment_id ≠ i) →
    commentIdPreserved i st st' := by
  induction l with
  | nil =>
      intro st st' i h _
      rw [attachCommentsAux] at h
      have he := Except.ok.inj h
      subst he
      exact commentIdPreserved_refl i st
  | cons q rest ih =>
      intro st st' i h hne
      obtain ⟨i0, c0⟩ := q
      rw [attachCommentsAux] at h
      have hne0 : c0.comment_id ≠ i := hne (i0, c0) (List.mem_cons_self _ _)
      have hnet : ∀ p ∈ rest, p.2.comment_id ≠ i :=
        fun p hp => hne p (List.mem_cons_of_mem _ hp)
      cases hres : st.host_or_service c0.host c0.service with
      | none => rw [hres] at h; cases h
      | some e =>
          cases e with
          | h hobj =>
              rw [hres] at h
              have hhost := (host_or_service_h_inv st _ _ hobj hres).2
              exact commentIdPreserved_trans i st _ st'
                (commentIdPreserved_attach_host st c0 hobj i hhost hne0)
                (ih _ st' i h hnet)
          | s sobj =>
              rw [hres] at h
              obtain ⟨sname0, hobj0, inner0, hse0, hhost0, hsvc0, hin0⟩ :=
                host_or_service_s_inv st _ _ sobj hres
              exact commentIdPreserved_trans i st _ st'
                (commentIdPreserved_attach_svc st c0 sobj sname0 inner0 i hse0 hsvc0 hin0 hne0)
                (ih _ st' i h hnet)

theorem attachDowntimesAux_commentIdPreserved (l : List (Int × Downtime)) :
    ∀ (st st' : NagiosState) (i : Int),
    attachDowntimesAux st l = Except.ok st' →
    commentIdPreserved i st st' := by
  induction l with
  | nil =>
      intro st st' i h
      rw [attachDowntimesAux] at h
      have he := Except.ok.inj h
      subst he
      exact commentIdPreserved_refl i st
  | cons q rest ih =>
      intro st st' i h
      obtain ⟨i0, d0⟩ := q
      rw [attachDowntimesAux] at h
      cases hres : st.host_or_service d0.host d0.service with
      | none => rw [hres] at h; cases h
      | some e =>
          cases e with
          | h hobj =>
              rw [hres] at h
              have hhost := (host_or_service_h_inv st _ _ hobj hres).2
              exact commentIdPreserved_trans i st _ st'
                (commentIdPreserved_attach_host_dt st d0 hobj i hhost)
                (ih _ st' i h)
          | s sobj =>
              rw [hres] at h
              obtain ⟨sname0, hobj0, inner0, hse0, hhost0, hsvc0, hin0⟩ :=
                host_or_service_s_inv st _ _ sobj hres
              exact commentIdPreserved_trans i st _ st'
                (commentIdPreserved_attach_svc_dt st d0 sobj sname0 inner0 i hse0 hsvc0 hin0)
                (ih _ st' i h)

theorem attachDowntimesAux_idPreserved_d (l : List (Int × Downtime)) :
    ∀ (st st' : NagiosState) (i : Int),
    attachDowntimesAux st l = Except.ok st' →
    (∀ p ∈ l, p.2.downtime_id ≠ i) →
    downtimeIdPreserved i st st' := by
  induction l with
  | nil =>
      intro st st' i h _
      rw [attachDowntimesAux] at h
      have he := Except.ok.inj h
      subst he
      exact downtimeIdPreserved_refl i st
  | cons q rest ih =>
      intro st st' i h hne
      obtain ⟨i0, d0⟩ := q
      rw [attachDowntimesAux] at h
      have hne0 : d0.downtime_id ≠ i := hne (i0, d0) (List.mem_cons_self _ _)
      have hnet : ∀ p ∈ rest, p.2.downtime_id ≠ i :=
        fun p hp => hne p (List.mem_cons_of_mem _ hp)
      cases hres : st.host_or_service d0.host d0.service with
      | none => rw [hres] at h; cases h
      | some e =>
          cases e with
          | h hobj =>
              rw [hres] at h
              have hhost := (host_or_service_h_inv st _ _ hobj hres).2
              exact downtimeIdPreserved_trans i st _ st'
                (downtimeIdPreserved_attach_host_d st d0 hobj i hhost hne0)
                (ih _ st' i h hnet)
          | s sobj =>
              rw [hres] at h
              obtain ⟨sname0, hobj0, inner0, hse0, hhost0, hsvc0, hin0⟩ :=
                host_or_service_s_inv st _ _ sobj hres
              exact downtimeIdPreserved_trans i st _ st'
                (downtimeIdPreserved_attach_svc_d st d0 sobj sname0 inner0 i hse0 hsvc0 hin0 hne0)
                (ih _ st' i h hnet)

theorem updateHostServiceCopy_comments (a b : Option String) (svc : Service)
    (hosts : List (Option String × Host)) (k : Option String) (hobj1 : Host)
    (hg : dictGet k (updateHostServiceCopy a b svc hosts) = some hobj1) :
    ∃ hobj, dictGet k hosts = some hobj ∧ hobj1.comments = hobj.comments
      ∧ hobj1.downtimes = hobj.downtimes := by
  rw [dictGet_updateHostServiceCopy] at hg
  by_cases hk : a = k
  · rw [if_pos hk] at hg
    cases hgx : dictGet k hosts with
    | none => rw [hgx] at hg; cases hg
    | some hobjX =>
        rw [hgx] at hg
        have h1 := (Option.some.inj hg).symm
        exact ⟨hobjX, rfl, by rw [h1], by rw [h1]⟩
  · rw [if_neg hk] at hg
    exact ⟨hobj1, hg, rfl, rfl⟩

theorem attachCommentsAux_notOnHosts (l : List (Int × Comment)) :
    ∀ (st st' : NagiosState) (i : Int),
    attachCommentsAux st l = Except.ok st' →
    (∀ p ∈ l, p.2.comment_id ≠ i ∨ p.2.service ≠ Option.none) →
    commentNotOnHosts st i → commentNotOnHosts st' i := by
  induction l with
  | nil =>
      intro st st' i h _ hn
      rw [attachCommentsAux] at h
      have he := Except.ok.inj h
      subst he
      exact hn
  | cons q rest ih =>
      intro st st' i h hcond hn
      obtain ⟨i0, c0⟩ := q
      rw [attachCommentsAux] at h
      have hcondt : ∀ p ∈ rest, p.2.comment_id ≠ i ∨ p.2.service ≠ Option.none :=
        fun p hp => hcond p (List.mem_cons_of_mem _ hp)
      cases hres : st.host_or_service c0.host c0.service with
      | none => rw [hres] at h; cases h
      | some e =>
          cases e with
          | h hobj =>
              rw [hres] at h
              obtain ⟨hserv, hhost⟩ := host_or_service_h_inv st _ _ hobj hres
              have hne0 : c0.comment_id ≠ i := by
                rcases hcond (i0, c0) (List.mem_cons_self _ _) with h1 | h1
                · exact h1
                · exact absurd hserv h1
              refine ih _ st' i h hcondt ?_
              exact commentNotOnHosts_mono st _ i
                (commentIdPreserved_attach_host st c0 hobj i hhost hne0) hn
          | s sobj =>
              rw [hres] at h
              refine ih _ st' i h hcondt ?_
              intro k hobj1 hg1
              obtain ⟨hobj0, hg0, hc0, _⟩ :=
                updateHostServiceCopy_comments c0.host sobj.service
                  (sobj.attach_comment c0) st.hosts k hobj1 hg1
              rw [hc0]
              exact hn k hobj0 hg0

theorem attachDowntimesAux_notOnHosts_d (l : List (Int × Downtime)) :
    ∀ (st st' : NagiosState) (i : Int),
    attachDowntimesAux st l = Except.ok st' →
    (∀ p ∈ l, p.2.downtime_id ≠ i ∨ p.2.service ≠ Option.none) →
    downtimeNotOnHosts st i → downtimeNotOnHosts st' i := by
  induction l with
  | nil =>
      intro st st' i h _ hn
      rw [attachDowntimesAux] at h
      have he := Except.ok.inj h
      subst he
      exact hn
  | cons q rest ih =>
      intro st st' i h hcond hn
      obtain ⟨i0, d0⟩ := q
      rw [attachDowntimesAux] at h
      have hcondt : ∀ p ∈ rest, p.2.downtime_id ≠ i ∨ p.2.service ≠ Option.none :=
        fun p hp => hcond p (List.mem_cons_of_mem _ hp)
      cases hres : st.host_or_service d0.host d0.service with
      | none => rw [hres] at h; cases h
      | some e =>
          cases e with
          | h hobj =>
              rw [hres] at h
              obtain ⟨hserv, hhost⟩ := host_or_service_h_inv st _ _ hobj hres
              have hne0 : d0.downtime_id ≠ i := by
                rcases hcond (i0, d0) (List.mem_cons_self _ _) with h1 | h1
                · exact h1
                · exact absurd hserv h1
              refine ih _ st' i h hcondt ?_
              exact downtimeNotOnHosts_mono st _ i
                (downtimeIdPreserved_attach_host_d st d0 hobj i hhost hne0) hn
          | s sobj =>
              rw [hres] at h
              refine ih _ st' i h hcondt ?_
              intro k hobj1 hg1
              obtain ⟨hobj0, hg0, _, hd0⟩ :=
                updateHostServiceCopy_comments d0.host sobj.service
                  (sobj.attach_downtime d0) st.hosts k hobj1 hg1
              rw [hd0]
              exact hn k hobj0 hg0

theorem attachCommentsAux_host_downtimes (l : List (Int × Comment)) :
    ∀ (st st' : NagiosState),
    attachCommentsAux st l = Except.ok st' →
    ∀ (k : Option String) (hobj' : Host), dictGet k st'.hosts = some hobj' →
    ∃ hobj, dictGet k st.hosts = some hobj ∧ hobj'.downtimes = hobj.downtimes := by
  induction l with
  | nil =>
      intro st st' h k hobj' hg
      rw [attachCommentsAux] at h
      have he := Except.ok.inj h
      subst he
      exact ⟨hobj', hg, rfl⟩
  | cons q rest ih =>
      intro st st' h k hobj' hg
      obtain ⟨i0, c0⟩ := q
      rw [attachCommentsAux] at h
      cases hres : st.host_or_service c0.host c0.service with
      | none => rw [hres] at h; cases h
      | some e =>
          cases e with
          | h hobj =>
              rw [hres] at h
              have hhost := (host_or_service_h_inv st _ _ hobj hres).2
              obtain ⟨h1, hg1, hd1⟩ := ih _ st' h k hobj' hg
              have hg1' : dictGet k (dictInsert c0.host (hobj.attach_comment c0) st.hosts)
                  = some h1 := hg1
              rw [dictGet_dictInsert] at hg1'
              by_cases hk : c0.host = k
              · rw [if_pos hk] at hg1'
                have he1 : h1 = hobj.attach_comment c0 := (Option.some.inj hg1').symm
                refine ⟨hobj, by rw [← hk]; exact hhost, ?_⟩
                rw [hd1, he1]
                rfl
              · rw [if_neg hk] at hg1'
                exact ⟨h1, hg1', hd1⟩
          | s sobj =>
              rw [hres] at h
              obtain ⟨h1, hg1, hd1⟩ := ih _ st' h k hobj' hg
              obtain ⟨h0, hg0, _, hd0⟩ :=
                updateHostServiceCopy_comments c0.host sobj.service
                  (sobj.attach_comment c0) st.hosts k h1 hg1
              exact ⟨h0, hg0, hd1.trans hd0⟩

theorem attachCommentsAux_attaches (l : List (Int × Comment)) :
    ∀ (st st' : NagiosState) (i : Int) (c : Comment),
    attachCommentsAux st l = Except.ok st' →
    (i, c) ∈ l →
    (∀ p ∈ l, p.2.comment_id = p.1) →
    (l.map Prod.fst).Nodup →
    (∀ sname, c.service = some sname → commentAttachedToService st' c sname)
    ∧ (c.service = Option.none → commentAttachedToHost st' c) := by
  induction l with
  | nil =>
      intro st st' i c _ hmem
      simp at hmem
  | cons q rest ih =>
      intro st st' i c hok hmem hid hnd
      obtain ⟨i0, c0⟩ := q
      rw [attachCommentsAux] at hok
      have hidt : ∀ p ∈ rest, p.2.comment_id = p.1 :=
        fun p hp => hid p (List.mem_cons_of_mem _ hp)
      have hnd' : i0 ∉ rest.map Prod.fst ∧ (rest.map Prod.fst).Nodup := by
        rw [List.map_cons, List.nodup_cons] at hnd
        exact hnd
      rcases List.mem_cons.mp hmem with h1 | h1
      · rw [Prod.mk.injEq] at h1
        obtain ⟨hi0, hc0⟩ := h1
        subst hi0
        subst hc0
        have hcid : c.comment_id = i := hid (i, c) (List.mem_cons_self _ _)
        have hrest_ne : ∀ p ∈ rest, p.2.comment_id ≠ c.comment_id := by
          intro p hp he
          refine hnd'.1 ?_
          have hp1 : p.1 = i := by
            rw [← hidt p hp, he, hcid]
          exact hp1 ▸ List.mem_map.mpr ⟨p, hp, rfl⟩
        cases hres : st.host_or_service c.host c.service with
        | none => rw [hres] at hok; cases hok
        | some e =>
            cases e with
            | h hobj =>
                rw [hres] at hok
                obtain ⟨hserv0, hhost0⟩ := host_or_service_h_inv st _ _ hobj hres
                constructor
                · intro sname hs
                  rw [hserv0] at hs
                  cases hs
                · intro _
                  refine commentAttachedToHost_mono _ st' c
                    (attachCommentsAux_idPreserved rest _ st' c.comment_id hok hrest_ne) ?_
                  refine ⟨hobj.attach_comment c, ?_, ?_⟩
                  · show dictGet c.host
                        (dictInsert c.host (hobj.attach_comment c) st.hosts)
                      = some (hobj.attach_comment c)
                    rw [dictGet_dictInsert, if_pos rfl]
                  · show dictGet c.comment_id (dictInsert c.comment_id c hobj.comments) = some c
                    rw [dictGet_dictInsert, if_pos rfl]
            | s sobj =>
                rw [hres] at hok
                obtain ⟨sname0, hobj0, inner0, hse0, hhost0, hsvc0, hin0⟩ :=
                  host_or_service_s_inv st _ _ sobj hres
                constructor
                · intro sname hs
                  have hsn : sname0 = sname := by
                    rw [hse0] at hs
                    exact Option.some.inj hs
                  subst hsn
                  refine commentAttachedToService_mono _ st' c sname0
                    (attachCommentsAux_idPreserved rest _ st' c.comment_id hok hrest_ne) ?_
                  refine ⟨?_, dictInsert c.service (sobj.attach_comment c) inner0,
                    sobj.attach_comment c, ?_, ?_, ?_⟩
                  · show hasKey c.host (updateHostServiceCopy c.host sobj.service
                      (sobj.attach_comment c) st.hosts) = true
                    rw [hasKey_updateHostServiceCopy, hasKey_eq_true_iff]
                    exact ⟨hobj0, hhost0⟩
                  · show dictGet c.host (updateService c.host c.service
                      (sobj.attach_comment c) st.services)
                      = some (dictInsert c.service (sobj.attach_comment c) inner0)
                    rw [dictGet_updateService, if_pos rfl, hsvc0]
                    rfl
                  · rw [dictGet_dictInsert, hse0, if_pos rfl]
                  · show dictGet c.comment_id (dictInsert c.comment_id c sobj.comments) = some c
                    rw [dictGet_dictInsert, if_pos rfl]
                · intro hs
                  rw [hse0] at hs
                  cases hs
      · cases hres : st.host_or_service c0.host c0.service with
        | none => rw [hres] at hok; cases hok
        | some e =>
            cases e with
            | h hobj =>
                rw [hres] at hok
                exact ih _ st' i c hok h1 hidt hnd'.2
            | s sobj =>
                rw [hres] at hok
                exact ih _ st' i c hok h1 hidt hnd'.2

theorem attachDowntimesAux_attaches (l : List (Int × Downtime)) :
    ∀ (st st' : NagiosState) (i : Int) (d : Downtime),
    attachDowntimesAux st l = Except.ok st' →
    (i, d) ∈ l →
    (∀ p ∈ l, p.2.downtime_id = p.1) →
    (l.map Prod.fst).Nodup →
    (∀ sname, d.service = some sname → downtimeAttachedToService st' d sname)
    ∧ (d.service = Option.none → downtimeAttachedToHost st' d) := by
  induction l with
  | nil =>
      intro st st' i d _ hmem
      simp at hmem
  | cons q rest ih =>
      intro st st' i d hok hmem hid hnd
      obtain ⟨i0, d0⟩ := q
      rw [attachDowntimesAux] at hok
      have hidt : ∀ p ∈ rest, p.2.downtime_id = p.1 :=
        fun p hp => hid p (List.mem_cons_of_mem _ hp)
      have hnd' : i0 ∉ rest.map Prod.fst ∧ (rest.map Prod.fst).Nodup := by
        rw [List.map_cons, List.nodup_cons] at hnd
        exact hnd
      rcases List.mem_cons.mp hmem with h1 | h1
      · rw [Prod.mk.injEq] at h1
        obtain ⟨hi0, hd0⟩ := h1
        subst hi0
        subst hd0
        have hcid : d.downtime_id = i := hid (i, d) (List.mem_cons_self _ _)
        have hrest_ne : ∀ p ∈ rest, p.2.downtime_id ≠ d.downtime_id := by
          intro p hp he
          refine hnd'.1 ?_
          have hp1 : p.1 = i := by
            rw [← hidt p hp, he, hcid]
          exact hp1 ▸ List.mem_map.mpr ⟨p, hp, rfl⟩
        cases hres : st.host_or_service d.host d.service with
        | none => rw [hres] at hok; cases hok
        | some e =>
            cases e with
            | h hobj =>
                rw [hres] at hok
                obtain ⟨hserv0, hhost0⟩ := host_or_service_h_inv st _ _ hobj hres
                constructor
                · intro sname hs
                  rw [hserv0] at hs
                  cases hs
                · intro _
                  refine downtimeAttachedToHost_mono _ st' d
                    (attachDowntimesAux_idPreserved_d rest _ st' d.downtime_id hok hrest_ne) ?_
                  refine ⟨hobj.attach_downtime d, ?_, ?_⟩
                  · show dictGet d.host
                        (dictInsert d.host (hobj.attach_downtime d) st.hosts)
                      = some (hobj.attach_downtime d)
                    rw [dictGet_dictInsert, if_pos rfl]
                  · show dictGet d.downtime_id
                        (dictInsert d.downtime_id d hobj.downtimes) = some d
                    rw [dictGet_dictInsert, if_pos rfl]
            | s sobj =>
                rw [hres] at hok
                obtain ⟨sname0, hobj0, inner0, hse0, hhost0, hsvc0, hin0⟩ :=
                  host_or_service_s_inv st _ _ sobj hres
                constructor
                · intro sname hs
                  have hsn : sname0 = sname := by
                    rw [hse0] at hs
                    exact Option.some.inj hs
                  subst hsn
                  refine downtimeAttachedToService_mono _ st' d sname0
                    (attachDowntimesAux_idPreserved_d rest _ st' d.downtime_id hok hrest_ne) ?_
                  refine ⟨?_, dictInsert d.service (sobj.attach_downtime d) inner0,
                    sobj.attach_downtime d, ?_, ?_, ?_⟩
                  · show hasKey d.host (updateHostServiceCopy d.host sobj.service
                      (sobj.attach_downtime d) st.hosts) = true
                    rw [hasKey_updateHostServiceCopy, hasKey_eq_true_iff]
                    exact ⟨hobj0, hhost0⟩
                  · show dictGet d.host (updateService d.host d.service
                      (sobj.attach_downtime d) st.services)
                      = some (dictInsert d.service (sobj.attach_downtime d) inner0)
                    rw [dictGet_updateService, if_pos rfl, hsvc0]
                    rfl
                  · rw [dictGet_dictInsert, hse0, if_pos rfl]
                  · show dictGet d.downtime_id
                        (dictInsert d.downtime_id d sobj.downtimes) = some d
                    rw [dictGet_dictInsert, if_pos rfl]
                · intro hs
                  rw [hse0] at hs
                  cases hs
      · cases hres : st.host_or_service d0.host d0.service with
        | none => rw [hres] at hok; cases hok
        | some e =>
            cases e with
            | h hobj =>
                rw [hres] at hok
                exact ih _ st' i d hok h1 hidt hnd'.2
            | s sobj =>
                rw [hres] at hok
                exact ih _ st' i d hok h1 hidt hnd'.2

theorem host_or_service_of_service_lookup (st : NagiosState) (h : Option String)
    (sname : String) (inner : List (Option String × Service)) (svc : Service)
    (hh : hasKey h st.hosts = true)
    (hg : dictGet h st.services = some inner)
    (hin : dictGet (some sname) inner = some svc) :
    st.host_or_service h (some sname) = some (Entity.s svc) := by
  obtain ⟨hobj, hhg⟩ := (hasKey_eq_true_iff h st.hosts).mp hh
  simp [NagiosState.host_or_service, hhg, hg, hin]

/-! ## Claim C5 -/

/-- C5: in every successfully built snapshot, a comment entity carrying a
service description is attached to the service `(host_name,
service_description)` — reachable through `host_or_service` — and appears in
no host's own comment dict; a comment without a service description is
attached to its host's comment dict.  The same holds for downtimes with
their downtime dicts. -/
theorem C5_comment_downtime_attachment (lines : List String) (stanzas : List Stanza)
    (st stF : NagiosState) (i j : Int) (c : Comment) (d : Downtime)
    (hp : next_stanza lines = Except.ok stanzas)
    (hs : processStanzas stanzas = Except.ok st)
    (hb : nagiosBuild lines = Except.ok stF) :
    ((i, c) ∈ st.comments →
      (∀ sname, c.service = some sname →
        (∃ svc, stF.host_or_service c.host (some sname) = some (Entity.s svc)
          ∧ dictGet c.comment_id svc.comments = some c)
        ∧ commentNotOnHosts stF c.comment_id)
      ∧ (c.service = Option.none → commentAttachedToHost stF c))
    ∧ ((j, d) ∈ st.downtimes →
      (∀ sname, d.service = some sname →
        (∃ svc, stF.host_or_service d.host (some sname) = some (Entity.s svc)
          ∧ dictGet d.downtime_id svc.downtimes = some d)
        ∧ downtimeNotOnHosts stF d.downtime_id)
      ∧ (d.service = Option.none → downtimeAttachedToHost stF d)) := by
  obtain ⟨st1, st2, has, hac, had⟩ :=
    nagiosBuild_ok_decompose lines stanzas st stF hp hs hb
  have f1 := attachServicesAux_ok_facts st.services st st1 has
  have f2 := attachCommentsAux_ok_facts st1.comments st1 st2 hac
  have hidc : ∀ p ∈ st.comments, p.2.comment_id = p.1 :=
    processStanzasAux_comments_id stanzas initState st hs (by intro p hp'; cases hp')
  have hndc : (st.comments.map Prod.fst).Nodup :=
    processStanzasAux_comments_nodup stanzas initState st hs List.nodup_nil
  have hidd : ∀ p ∈ st.downtimes, p.2.downtime_id = p.1 :=
    processStanzasAux_downtimes_id stanzas initState st hs (by intro p hp'; cases hp')
  have hndd : (st.downtimes.map Prod.fst).Nodup :=
    processStanzasAux_downtimes_nodup stanzas initState st hs List.nodup_nil
  have hclean : ∀ p ∈ st.hosts, p.2.services = [] ∧ p.2.comments = [] ∧ p.2.downtimes = [] :=
    processStanzasAux_hosts_clean stanzas initState st hs (by intro p hp'; cases hp')
  constructor
  · intro hmem
    have hmem1 : (i, c) ∈ st1.comments := by rw [f1.2.1]; exact hmem
    have hid1 : ∀ p ∈ st1.comments, p.2.comment_id = p.1 := by rw [f1.2.1]; exact hidc
    have hnd1 : (st1.comments.map Prod.fst).Nodup := by rw [f1.2.1]; exact hndc
    have hmain := attachCommentsAux_attaches st1.comments st1 st2 i c hac hmem1 hid1 hnd1
    have hpres3 := attachDowntimesAux_commentIdPreserved st2.downtimes st2 stF c.comment_id had
    constructor
    · intro sname hsv
      have hPF := commentAttachedToService_mono st2 stF c sname hpres3 (hmain.1 sname hsv)
      have hN1 : commentNotOnHosts st1 c.comment_id := by
        intro k hobj hg
        obtain ⟨hobj0, hg0, hc0, _⟩ := f1.2.2.2.2 k hobj hg
        rw [hc0, (hclean (k, hobj0) (dictGet_mem hg0)).2.1]
        rfl
      have hci : c.comment_id = i := hidc (i, c) hmem
      have hcond : ∀ p ∈ st1.comments,
          p.2.comment_id ≠ c.comment_id ∨ p.2.service ≠ Option.none := by
        intro p hp'
        by_cases hpi : p.2.comment_id = c.comment_id
        · right
          have hp1 : p.1 = i := by rw [← hid1 p hp', hpi, hci]
          have e1 : dictGet i st1.comments = some p.2 := by
            refine dictGet_of_mem_nodup hnd1 ?_
            rw [← hp1]
            exact hp'
          have e2 : dictGet i st1.comments = some c := dictGet_of_mem_nodup hnd1 hmem1
          have hpc : p.2 = c := Option.some.inj (e1.symm.trans e2)
          rw [hpc, hsv]
          simp
        · exact Or.inl hpi
      have hN2 := attachCommentsAux_notOnHosts st1.comments st1 st2 c.comment_id hac hcond hN1
      have hNF := commentNotOnHosts_mono st2 stF c.comment_id hpres3 hN2
      obtain ⟨hhk, inner, svc, hg, hin, hcc⟩ := hPF
      exact ⟨⟨svc, host_or_service_of_service_lookup stF c.host sname inner svc hhk hg hin,
        hcc⟩, hNF⟩
    · intro hsv
      exact commentAttachedToHost_mono st2 stF c hpres3 (hmain.2 hsv)
  · intro hmem
    have hdtEq : st2.downtimes = st.downtimes := by rw [f2.2.1, f1.2.2.1]
    have hmem2 : (j, d) ∈ st2.downtimes := by rw [hdtEq]; exact hmem
    have hid2 : ∀ p ∈ st2.downtimes, p.2.downtime_id = p.1 := by rw [hdtEq]; exact hidd
    have hnd2 : (st2.downtimes.map Prod.fst).Nodup := by rw [hdtEq]; exact hndd
    have hmain := attachDowntimesAux_attaches st2.downtimes st2 stF j d had hmem2 hid2 hnd2
    constructor
    · intro sname hsv
      have hPF := hmain.1 sname hsv
      have hN2 : downtimeNotOnHosts st2 d.downtime_id := by
        intro k hobj hg2
        obtain ⟨hobj1, hg1, hd1⟩ :=
          attachCommentsAux_host_downtimes st1.comments st1 st2 hac k hobj hg2
        obtain ⟨hobj0, hg0, _, hd0⟩ := f1.2.2.2.2 k hobj1 hg1
        rw [hd1, hd0, (hclean (k, hobj0) (dictGet_mem hg0)).2.2]
        rfl
      have hdi : d.downtime_id = j := hidd (j, d) hmem
      have hcond : ∀ p ∈ st2.downtimes,
          p.2.downtime_id ≠ d.downtime_id ∨ p.2.service ≠ Option.none := by
        intro p hp'
        by_cases hpi : p.2.downtime_id = d.downtime_id
        · right
          have hp1 : p.1 = j := by rw [← hid2 p hp', hpi, hdi]
          have e1 : dictGet j st2.downtimes = some p.2 := by
            refine dictGet_of_mem_nodup hnd2 ?_
            rw [← hp1]
            exact hp'
          have e2 : dictGet j st2.downtimes = some d := dictGet_of_mem_nodup hnd2 hmem2
          have hpc : p.2 = d := Option.some.inj (e1.symm.trans e2)
          rw [hpc, hsv]
          simp
        · exact Or.inl hpi
      have hNF := attachDowntimesAux_notOnHosts_d st2.downtimes st2 stF d.downtime_id had
        hcond hN2
      obtain ⟨hhk, inner, svc, hg, hin, hcc⟩ := hPF
      exact ⟨⟨svc, host_or_service_of_service_lookup stF d.host sname inner svc hhk hg hin,
        hcc⟩, hNF⟩
    · intro hsv
      exact hmain.2 hsv

/-- Witness for C5 on the concrete input `w5lines`: the service comment with
id 5 lands on the `(web1, http)` service and not on the host `web1`, while
the host downtime with id 7 lands on the host `web1`. -/
theorem C5_comment_downtime_attachment_witness :
    (∃ svc, w5stF.host_or_service (some "web1") (some "http") = some (Entity.s svc)
      ∧ dictGet 5 svc.comments = some w5c)
    ∧ dictGet 5 w5host.comments = Option.none
    ∧ dictGet 7 w5host.downtimes = some w5d := by
  have h := C5_comment_downtime_attachment w5lines w5stanzas w5st w5stF 5 7 w5c w5d
    rfl rfl rfl
  have hcom := (h.1 (by decide)).1 "http" rfl
  have hdt := (h.2 (by decide)).2 rfl
  refine ⟨hcom.1, ?_, ?_⟩
  · exact hcom.2 (some "web1") w5host rfl
  · obtain ⟨hobj, hg, hdd⟩ := hdt
    have hg' : dictGet (some "web1") w5stF.hosts = some hobj := hg
    have hw : some w5host = some hobj := by
      rw [← hg']
      rfl
    rw [Option.some.inj hw]
    exact hdd
